import Mathlib

/-!
Verification of the diet-survey aggregation pipeline:
a shallow embedding of `src/composables/useDietData.ts` (column
reconciliation, canonicalization, bucketed averaging) and of the
normalization step of `src/components/DietStackedBar3D.vue`.

Modelling conventions.
JavaScript machine floats are idealized as exact rationals; the special
values arising in the chart normalization (NaN, Infinity) are modelled
explicitly by the `JsNum` type.  Object literals used as lookup tables
are modelled as finite association lists (own-property lookup; the
prototype chain is out of scope).  Enumeration of own keys
(`Object.keys` / `Object.entries`) follows the ECMAScript order: keys
that are canonical array indices first, ascending, then the remaining
keys in insertion order.  Property access with an `undefined` key reads
the property literally named "undefined".
-/

namespace DietViz

/-- A CSV cell value as produced by the parsing primitive with dynamic
typing: a finite number, a string, a boolean, or null/undefined. -/
inductive Cell where
  | num (q : ℚ)
  | str (s : String)
  | bool (b : Bool)
  | null
  deriving DecidableEq

/-- A parsed row: an association of column name to cell value. -/
abbrev Row := List (String × Cell)

/-- JavaScript whitespace (ASCII fragment). -/
def isJsWs (c : Char) : Bool :=
  c == ' ' || c == '\t' || c == '\n' || c == '\r' || c == '\x0b' || c == '\x0c'

/-- The ASCII case-mapping pairs of `toLowerCase`. -/
def lowerTable : List (Char × Char) :=
  [('A', 'a'), ('B', 'b'), ('C', 'c'), ('D', 'd'), ('E', 'e'), ('F', 'f'),
   ('G', 'g'), ('H', 'h'), ('I', 'i'), ('J', 'j'), ('K', 'k'), ('L', 'l'),
   ('M', 'm'), ('N', 'n'), ('O', 'o'), ('P', 'p'), ('Q', 'q'), ('R', 'r'),
   ('S', 's'), ('T', 't'), ('U', 'u'), ('V', 'v'), ('W', 'w'), ('X', 'x'),
   ('Y', 'y'), ('Z', 'z')]

/-- ASCII lower-casing of a single character (model of the
case-mapping used by `toLowerCase`). -/
def lowerChar (c : Char) : Char :=
  match lowerTable.find? (fun p => p.1 == c) with
  | some p => p.2
  | none => c

/-- Model of `String.prototype.trim`. -/
def jsTrim (s : String) : String :=
  ⟨((s.data.dropWhile isJsWs).reverse.dropWhile isJsWs).reverse⟩

/-- Model of `String.prototype.toLowerCase` (ASCII). -/
def jsToLower (s : String) : String := ⟨s.data.map lowerChar⟩

/-- Model of `.replace(/,/g, then '.')`: every comma becomes a dot. -/
def commaToDot (s : String) : String :=
  ⟨s.data.map (fun c => if c = ',' then '.' else c)⟩

/-- Value of a list of decimal digit characters. -/
def digitsToNat (l : List Char) : Nat :=
  l.foldl (fun a c => a * 10 + (c.toNat - 48)) 0

/-- Number of times `p` divides `m` (fuel-based, fuel `m` suffices). -/
def countFactorAux (p : Nat) : Nat → Nat → Nat
  | 0, _ => 0
  | fuel+1, m => if 2 ≤ p ∧ 0 < m ∧ m % p = 0 then countFactorAux p fuel (m / p) + 1 else 0

def countFactor (p m : Nat) : Nat := countFactorAux p m m

def padLeftZeros (k : Nat) (s : String) : String :=
  ⟨List.replicate (k - s.length) '0' ++ s.data⟩

/-- Decimal rendering of a rational, modelling JavaScript
number-to-string conversion under the exact-rational idealization
(denominators of parsed decimals are always of the form 2^a*5^b; the
final fallback branch is unreachable for such values). -/
def numToString (q : ℚ) : String :=
  if q = 0 then "0" else
  let n := q.num.natAbs
  let d := q.den
  let a := countFactor 2 d
  let b := countFactor 5 d
  if d = 2 ^ a * 5 ^ b then
    let k := max a b
    let m := n * 10 ^ k / d
    let sign := if q < 0 then "-" else ""
    if k = 0 then sign ++ toString m
    else sign ++ toString (m / 10 ^ k) ++ "." ++ padLeftZeros k (toString (m % 10 ^ k))
  else toString q

/-- String conversion of a cell, modelling `value.toString()`; `null`
never reaches this point in the source. -/
def cellToString (v : Cell) : String :=
  match v with
  | .num q => numToString q
  | .str s => s
  | .bool b => if b then "true" else "false"
  | .null => "null"

/-- JavaScript truthiness of a cell (`!value` is its negation). -/
def cellTruthy (v : Cell) : Bool :=
  match v with
  | .num q => !(q == 0)
  | .str s => !(s == "")
  | .bool b => b
  | .null => false

/-- `cleanString` from useDietData.ts: falsy values give the empty
string, otherwise trim then lower-case the string form. -/
def cleanString (v : Cell) : String :=
  if cellTruthy v then jsToLower (jsTrim (cellToString v)) else ""

/-- Exponent part accepted by `parseFloat` (sign and digits). -/
def expVal (t : List Char) : Int :=
  let se : Int × List Char :=
    match t with
    | '+' :: u => (1, u)
    | '-' :: u => (-1, u)
    | _ => (1, t)
  let ds := se.2.takeWhile (·.isDigit)
  if ds.isEmpty then 0 else se.1 * (digitsToNat ds : Int)

/-- Model of `parseFloat`: longest numeric prefix, `none` for NaN.
The `Infinity` literal has no rational value and is not modelled. -/
def jsParseFloat (s : String) : Option ℚ :=
  let l := s.data.dropWhile isJsWs
  let sl : ℚ × List Char :=
    match l with
    | '+' :: t => (1, t)
    | '-' :: t => (-1, t)
    | _ => (1, l)
  let ip := sl.2.takeWhile (·.isDigit)
  let r1 := sl.2.dropWhile (·.isDigit)
  let fp := match r1 with
    | '.' :: t => t.takeWhile (·.isDigit)
    | _ => []
  let r2 := match r1 with
    | '.' :: t => t.dropWhile (·.isDigit)
    | _ => r1
  if ip.isEmpty && fp.isEmpty then none
  else
    let mant : ℚ := (digitsToNat ip : ℚ) + (digitsToNat fp : ℚ) / 10 ^ fp.length
    let e : Int := match r2 with
      | 'e' :: t => expVal t
      | 'E' :: t => expVal t
      | _ => 0
    some (sl.1 * mant * (10 : ℚ) ^ e)

/-- `safeParseFloat` from useDietData.ts.  Numbers pass through; falsy
values give 0; otherwise trim, turn commas into dots, parse, and
coerce a failed (NaN) or zero parse to 0 via `x or-else 0`. -/
def safeParseFloat (v : Cell) : ℚ :=
  match v with
  | .num q => q
  | .str s => if s = "" then 0 else (jsParseFloat (commaToDot (jsTrim s))).getD 0
  | .bool b => if b then (jsParseFloat (commaToDot (jsTrim "true"))).getD 0 else 0
  | .null => 0

/-- The diet-group code table of useDietData.ts. -/
def dietGroupMapping : List (String × String) :=
  [("vegan", "vegan"), ("veggie", "vegetarian"), ("fish", "fish"),
   ("meat", "low_meat"), ("meat50", "medium_meat"), ("meat100", "high_meat")]

def genderMapping : List (String × String) :=
  [("female", "Female"), ("male", "Male")]

def ageGroupMapping : List (String × String) :=
  [("20-29", "20-29"), ("30-39", "30-39"), ("40-49", "40-49"),
   ("50-59", "50-59"), ("60-69", "60-69"), ("70-79", "70-79")]

/-- Own-property lookup in an object-literal table. -/
def lookupT (m : List (String × String)) (k : String) : Option String :=
  (m.find? (fun p => p.1 == k)).map (·.2)

/-- `dietGroupMapping[dietGroup] or-else dietGroup` (all table values
are non-empty strings, hence truthy). -/
def standardDietGroup (s : String) : String := (lookupT dietGroupMapping s).getD s

/-- `gender ? (genderMapping[gender] or-else Unknown) : Unknown`. -/
def standardGender (s : String) : String :=
  if s = "" then "Unknown" else (lookupT genderMapping s).getD "Unknown"

def standardAgeGroup (s : String) : String :=
  if s = "" then "Unknown" else (lookupT ageGroupMapping s).getD "Unknown"

/-- The alias table of the column reconciler. -/
def columnMap : List (String × List String) :=
  [("dietGroup", ["diet_group", "dietgroup", "diet"]),
   ("gender", ["sex", "gender"]),
   ("ageGroup", ["age_group", "agegroup", "age"]),
   ("ghgs", ["mean_ghgs", "ghgs", "greenhouse_gas"]),
   ("landUse", ["mean_land", "land", "land_use"]),
   ("waterScarcity", ["mean_watscar", "water", "water_scarcity"]),
   ("eutrophication", ["mean_eut", "eutrophication"]),
   ("acidification", ["mean_acid", "acidification"]),
   ("mean_bio", ["mean_bio", "biodiversity", "bio"])]

def aliasesFor (f : String) : List String :=
  ((columnMap.find? (fun p => p.1 == f)).map (·.2)).getD []

/-- Canonical array-index string: non-empty, all digits, no leading
zero (except "0" itself), value below 2^32 - 1. -/
def isArrayIndex (s : String) : Bool :=
  !s.data.isEmpty && s.data.all (·.isDigit) &&
    (s.data == ['0'] || s.data.head? != some '0') &&
    decide (digitsToNat s.data < 4294967295)

/-- Stable insertion into a list sorted by `le`. -/
def insertBy {α : Type} (le : α → α → Bool) (x : α) : List α → List α
  | [] => [x]
  | y :: ys => if le x y then x :: y :: ys else y :: insertBy le x ys

/-- Stable insertion sort (deterministic model of the array sort). -/
def sortBy {α : Type} (le : α → α → Bool) : List α → List α
  | [] => []
  | x :: xs => insertBy le x (sortBy le xs)

/-- ECMAScript own-property enumeration order over an association
list: array-index keys first in ascending numeric order, then the
remaining keys in insertion order. -/
def jsEntries {β : Type} (m : List (String × β)) : List (String × β) :=
  sortBy (fun p q => decide (digitsToNat p.1.data ≤ digitsToNat q.1.data))
      (m.filter (fun p => isArrayIndex p.1))
    ++ m.filter (fun p => !isArrayIndex p.1)

/-- First-occurrence deduplication (model of building a Set and
converting back to an array, and of object key insertion order). -/
def firstDedup {α : Type} [DecidableEq α] (l : List α) : List α :=
  l.foldl (fun acc x => if x ∈ acc then acc else acc ++ [x]) []

/-- Keep the first entry for each key (object keys are unique). -/
def dedupByKey {β : Type} (l : List (String × β)) : List (String × β) :=
  l.foldl (fun acc p => if acc.any (fun q => q.1 == p.1) then acc else acc ++ [p]) []

/-- ECMAScript own-key enumeration order over a key list. -/
def jsOrderKeys (ks : List String) : List String :=
  sortBy (fun a b => decide (digitsToNat a.data ≤ digitsToNat b.data))
      (ks.filter isArrayIndex)
    ++ ks.filter (fun k => !isArrayIndex k)

/-- `Object.keys(sampleRow)` in enumeration order. -/
def rowKeys (r : Row) : List String :=
  jsOrderKeys ((dedupByKey r).map (fun p => p.1))

/-- `availableColumns.find(c means possibleNames.includes(c.toLowerCase().trim()))`. -/
def findColumn (avail : List String) (possible : List String) : Option String :=
  avail.find? (fun c => possible.contains (jsTrim (jsToLower c)))

/-- The reconciled column mapping (`actualColumns`); a `none` field is
an unmapped column. -/
structure Cols where
  dietGroup : Option String
  gender : Option String
  ageGroup : Option String
  ghgs : Option String
  landUse : Option String
  waterScarcity : Option String
  eutrophication : Option String
  acidification : Option String
  mean_bio : Option String
  deriving DecidableEq

/-- Column reconciliation: run once over the first row's header set. -/
def computeCols (data : List Row) : Cols :=
  match data with
  | [] => ⟨none, none, none, none, none, none, none, none, none⟩
  | r :: _ =>
    let avail := rowKeys r
    { dietGroup := findColumn avail (aliasesFor "dietGroup")
      gender := findColumn avail (aliasesFor "gender")
      ageGroup := findColumn avail (aliasesFor "ageGroup")
      ghgs := findColumn avail (aliasesFor "ghgs")
      landUse := findColumn avail (aliasesFor "landUse")
      waterScarcity := findColumn avail (aliasesFor "waterScarcity")
      eutrophication := findColumn avail (aliasesFor "eutrophication")
      acidification := findColumn avail (aliasesFor "acidification")
      mean_bio := findColumn avail (aliasesFor "mean_bio") }

/-- `row[actualColumns.field]`: an unmapped column (`none`) reads the
property named "undefined" (ToPropertyKey(undefined)); a missing
property yields undefined, modelled by `Cell.null`. -/
def rowGet (r : Row) (k : Option String) : Cell :=
  ((r.find? (fun p => p.1 == k.getD "undefined")).map (·.2)).getD .null

/-- The six coerced indicator values of one record. -/
structure Vals where
  ghgs : ℚ
  landUse : ℚ
  waterScarcity : ℚ
  eutrophication : ℚ
  acidification : ℚ
  mean_bio : ℚ
  deriving DecidableEq

/-- Per-bucket accumulator: one sample list per indicator (the source
guards each push with `!isNaN(x)`, which always holds here because
`safeParseFloat` yields a rational for every cell of this model). -/
structure Samples where
  ghgs : List ℚ
  landUse : List ℚ
  waterScarcity : List ℚ
  eutrophication : List ℚ
  acidification : List ℚ
  mean_bio : List ℚ
  deriving DecidableEq

def Samples.empty : Samples := ⟨[], [], [], [], [], []⟩

def Samples.push (a : Samples) (v : Vals) : Samples :=
  ⟨a.ghgs ++ [v.ghgs], a.landUse ++ [v.landUse],
   a.waterScarcity ++ [v.waterScarcity], a.eutrophication ++ [v.eutrophication],
   a.acidification ++ [v.acidification], a.mean_bio ++ [v.mean_bio]⟩

/-- A canonicalized record: standardized labels plus coerced values. -/
structure CanRec where
  diet : String
  gender : String
  age : String
  vals : Vals
  deriving DecidableEq

def canonVals (cols : Cols) (r : Row) : Vals :=
  ⟨safeParseFloat (rowGet r cols.ghgs),
   safeParseFloat (rowGet r cols.landUse),
   safeParseFloat (rowGet r cols.waterScarcity),
   safeParseFloat (rowGet r cols.eutrophication),
   safeParseFloat (rowGet r cols.acidification),
   safeParseFloat (rowGet r cols.mean_bio)⟩

/-- One row of the forEach body up to the early return: rows whose
cleaned diet label is empty are skipped. -/
def canonRow (cols : Cols) (r : Row) : Option CanRec :=
  if cleanString (rowGet r cols.dietGroup) = "" then none
  else some ⟨standardDietGroup (cleanString (rowGet r cols.dietGroup)),
             standardGender (cleanString (rowGet r cols.gender)),
             standardAgeGroup (cleanString (rowGet r cols.ageGroup)),
             canonVals cols r⟩

def canonRows (cols : Cols) (data : List Row) : List CanRec :=
  data.filterMap (canonRow cols)

abbrev AMap := List (String × Samples)
abbrev NMap := List (String × AMap)

def amFind? (m : AMap) (k : String) : Option Samples :=
  (m.find? (fun p => p.1 == k)).map (·.2)

/-- `if (!map[k]) map[k] = emptySamples` — insertion at the end. -/
def amInit (m : AMap) (k : String) : AMap :=
  if (amFind? m k).isSome then m else m ++ [(k, Samples.empty)]

/-- Push a record's values onto the accumulator at key `k`. -/
def amPush (m : AMap) (k : String) (v : Vals) : AMap :=
  m.map (fun p => if p.1 == k then (p.1, p.2.push v) else p)

def nmFind? (m : NMap) (k : String) : Option AMap :=
  (m.find? (fun p => p.1 == k)).map (·.2)

def nmInit (m : NMap) (k : String) : NMap :=
  if (nmFind? m k).isSome then m else m ++ [(k, [])]

def nmInitInner (m : NMap) (k k2 : String) : NMap :=
  m.map (fun p => if p.1 == k then (p.1, amInit p.2 k2) else p)

def nmPush (m : NMap) (k k2 : String) (v : Vals) : NMap :=
  m.map (fun p => if p.1 == k then (p.1, amPush p.2 k2 v) else p)

/-- The five accumulation maps of loadData. -/
structure St where
  dietMap : AMap
  genderMap : AMap
  ageMap : AMap
  dietGender : NMap
  dietAge : NMap
  deriving DecidableEq

def St.empty : St := ⟨[], [], [], [], []⟩

/-- The forEach body of loadData over one row. -/
def stepRow (cols : Cols) (st : St) (r : Row) : St :=
  match canonRow cols r with
  | none => st
  | some c =>
    { dietMap := amPush (amInit st.dietMap c.diet) c.diet c.vals
      genderMap := amPush (amInit st.genderMap c.gender) c.gender c.vals
      ageMap := amPush (amInit st.ageMap c.age) c.age c.vals
      dietGender := nmPush (nmInitInner (nmInit st.dietGender c.diet) c.diet c.gender)
        c.diet c.gender c.vals
      dietAge := nmPush (nmInitInner (nmInit st.dietAge c.diet) c.diet c.age)
        c.diet c.age c.vals }

def finalState (cols : Cols) (data : List Row) : St :=
  data.foldl (stepRow cols) St.empty

/-- An output summary record (interface DietData of the source). -/
structure DietData where
  dietGroup : String
  gender : String
  ageGroup : String
  ghgs : ℚ
  landUse : ℚ
  waterScarcity : ℚ
  eutrophication : ℚ
  acidification : ℚ
  mean_bio : ℚ
  deriving DecidableEq

/-- `length > 0 ? sum / length : 0`. -/
def avgQ (xs : List ℚ) : ℚ :=
  if 0 < xs.length then xs.sum / (xs.length : ℚ) else 0

def accRecord (d g a : String) (acc : Samples) : DietData :=
  ⟨d, g, a, avgQ acc.ghgs, avgQ acc.landUse, avgQ acc.waterScarcity,
   avgQ acc.eutrophication, avgQ acc.acidification, avgQ acc.mean_bio⟩

def dietSection (st : St) : List DietData :=
  (jsEntries st.dietMap).map (fun p => accRecord p.1 "All" "All" p.2)

def genderSection (st : St) : List DietData :=
  (jsEntries st.genderMap).map (fun p => accRecord "All" p.1 "All" p.2)

def ageSection (st : St) : List DietData :=
  (jsEntries st.ageMap).map (fun p => accRecord "All" "All" p.1 p.2)

def dietGenderSection (st : St) : List DietData :=
  (jsEntries st.dietGender).flatMap
    (fun p => (jsEntries p.2).map (fun q => accRecord p.1 q.1 "All" q.2))

def dietAgeSection (st : St) : List DietData :=
  (jsEntries st.dietAge).flatMap
    (fun p => (jsEntries p.2).map (fun q => accRecord p.1 "All" q.1 q.2))

/-- The processedData list built by loadData for a given column
mapping: the five kind sections in source order. -/
def loadDataWithCols (cols : Cols) (data : List Row) : List DietData :=
  let st := finalState cols data
  dietSection st ++ genderSection st ++ ageSection st
    ++ dietGenderSection st ++ dietAgeSection st

/-- The full loadData pipeline from parsed rows to summary records. -/
def loadData (data : List Row) : List DietData :=
  loadDataWithCols (computeCols data) data

/-- The deduplicated diet-group label list exposed for the UI. -/
def dietGroupsList (data : List Row) : List String :=
  firstDedup ((loadData data).map (·.dietGroup))

def genderGroupsList (data : List Row) : List String :=
  firstDedup ((loadData data).map (·.gender))

def ageGroupsList (data : List Row) : List String :=
  firstDedup ((loadData data).map (·.ageGroup))

/-! ### The 3D chart normalization (DietStackedBar3D.vue) -/

/-- JavaScript number with special values, for the normalization step. -/
inductive JsNum where
  | fin (q : ℚ)
  | nan
  | inf
  | ninf
  deriving DecidableEq

/-- JavaScript division of finite numbers. -/
def jsDiv (a b : ℚ) : JsNum :=
  if b = 0 then (if a = 0 then .nan else if 0 < a then .inf else .ninf)
  else .fin (a / b)

/-- Multiplication of a JavaScript number by a finite weight. -/
def jsMulW (x : JsNum) (w : ℚ) : JsNum :=
  match x with
  | .fin q => .fin (q * w)
  | .nan => .nan
  | .inf => if 0 < w then .inf else if w < 0 then .ninf else .nan
  | .ninf => if 0 < w then .ninf else if w < 0 then .inf else .nan

/-- `x or-else 0` applied to the optional-chain read of the combined
map: undefined, NaN and 0 are falsy and give 0. -/
def jsOrZero (x : Option JsNum) : JsNum :=
  match x with
  | some (.fin q) => if q = 0 then .fin 0 else .fin q
  | some .nan => .fin 0
  | some v => v
  | none => .fin 0

/-- The chart's indicator list: value key and normalization weight. -/
def indicators : List (String × ℚ) :=
  [("ghgs", 1), ("landUse", 1/2), ("waterScarcity", 3/100),
   ("eutrophication", 1/5), ("acidification", 1/5), ("mean_bio", 2/5)]

/-- `item[indicator.value]` for the six indicator keys. -/
def getInd (r : DietData) (ind : String) : ℚ :=
  if ind = "ghgs" then r.ghgs
  else if ind = "landUse" then r.landUse
  else if ind = "waterScarcity" then r.waterScarcity
  else if ind = "eutrophication" then r.eutrophication
  else if ind = "acidification" then r.acidification
  else if ind = "mean_bio" then r.mean_bio
  else 0

/-- The diet-by-age subset used by the chart: specific diet and age,
gender collapsed to "All". -/
def filteredData (l : List DietData) : List DietData :=
  l.filter (fun i => i.dietGroup != "All" && i.ageGroup != "All" && i.gender == "All")

def dietOrder : List String :=
  ["vegan", "vegetarian", "fish", "low_meat", "medium_meat", "high_meat"]

def ageOrder : List String :=
  ["20-29", "30-39", "40-49", "50-59", "60-69", "70-79", "Unknown"]

/-- The non-positive cases of the sort comparator (`cmp a b ≤ 0`).  For
two keys both absent from `ord` the source comparator is inconsistent
(it returns 1 both ways), so that order is implementation-defined; this
model fixes one deterministic outcome. -/
def ordLe (ord : List String) (a b : String) : Bool :=
  match ord.findIdx? (fun x => x == a), ord.findIdx? (fun x => x == b) with
  | none, _ => false
  | some _, none => true
  | some i, some j => decide (i ≤ j)

def uniqueDietGroups (fl : List DietData) : List String :=
  sortBy (ordLe dietOrder) (firstDedup (fl.map (·.dietGroup)))

def uniqueAgeGroups (fl : List DietData) : List String :=
  sortBy (ordLe ageOrder) (firstDedup (fl.map (·.ageGroup)))

/-- `Math.max` over a non-empty list of values (the empty case is
unreachable: processedData returns early when the subset is empty). -/
def maxOfList (l : List ℚ) : ℚ :=
  match l with
  | [] => 0
  | x :: xs => xs.foldl max x

def maxI (fl : List DietData) (ind : String) : ℚ :=
  maxOfList (fl.map (fun r => getInd r ind))

abbrev IMap := List (String × JsNum)
abbrev A2Map := List (String × IMap)
abbrev CMap := List (String × A2Map)

/-- Assignment `m[k] = v`: overwrite in place, or append a new key. -/
def setK {β : Type} (m : List (String × β)) (k : String) (v : β) : List (String × β) :=
  if m.any (fun p => p.1 == k) then m.map (fun p => if p.1 == k then (p.1, v) else p)
  else m ++ [(k, v)]

def getK {β : Type} (m : List (String × β)) (k : String) : Option β :=
  (m.find? (fun p => p.1 == k)).map (·.2)

/-- The empty diet-by-age grid of the combined map. -/
def initCMap (uds uas : List String) : CMap :=
  uds.map (fun d => (d, uas.map (fun a => (a, ([] : IMap)))))

/-- One iteration of the fill loop: skip when the grid cell is absent
(`continue`), else store each indicator's normalized value in turn. -/
def fillItem (mx : String → ℚ) (cm : CMap) (r : DietData) : CMap :=
  match getK cm r.dietGroup with
  | none => cm
  | some inner =>
    match getK inner r.ageGroup with
    | none => cm
    | some im =>
      let im2 := indicators.foldl
        (fun acc iw => setK acc iw.1 (jsMulW (jsDiv (getInd r iw.1) (mx iw.1)) iw.2)) im
      setK cm r.dietGroup (setK inner r.ageGroup im2)

def combinedData (fl : List DietData) (uds uas : List String) (mx : String → ℚ) : CMap :=
  fl.foldl (fillItem mx) (initCMap uds uas)

def lookupCM (cm : CMap) (d a ind : String) : Option JsNum :=
  (getK cm d).bind (fun i => (getK i a).bind (fun im => getK im ind))

/-- One emitted data point: [xIndex, yIndex, normalizedValue,
indicator key, rawValue]. -/
structure Pt where
  x : Nat
  y : Nat
  value : JsNum
  ind : String
  raw : ℚ
  deriving DecidableEq

def mkPoint (fl : List DietData) (cm : CMap) (uds uas : List String)
    (d a : String) (iw : String × ℚ) : Pt :=
  { x := uds.findIdx (fun s => s == d)
    y := uas.findIdx (fun s => s == a)
    value := jsOrZero (lookupCM cm d a iw.1)
    ind := iw.1
    raw := ((fl.find? (fun r => r.dietGroup == d && r.ageGroup == a)).map
      (fun r => getInd r iw.1)).getD 0 }

/-- The data array of one bar3D series. -/
def seriesFor (fl : List DietData) (cm : CMap) (uds uas : List String)
    (iw : String × ℚ) : List Pt :=
  uds.flatMap (fun d => uas.map (fun a => mkPoint fl cm uds uas d a iw))

/-- The computed `processedData` series, one entry per indicator,
keyed by the indicator's value key. -/
def processedData3D (records : List DietData) : List (String × List Pt) :=
  let fl := filteredData records
  if fl.isEmpty then []
  else
    let uds := uniqueDietGroups fl
    let uas := uniqueAgeGroups fl
    let cm := combinedData fl uds uas (maxI fl)
    indicators.map (fun iw => (iw.1, seriesFor fl cm uds uas iw))

/-! ### Reference characterization of the accumulation maps -/

/-- The accumulator a bucket reaches: one sample per bucket member. -/
def accOf (l : List CanRec) : Samples :=
  ⟨l.map (fun c => c.vals.ghgs), l.map (fun c => c.vals.landUse),
   l.map (fun c => c.vals.waterScarcity), l.map (fun c => c.vals.eutrophication),
   l.map (fun c => c.vals.acidification), l.map (fun c => c.vals.mean_bio)⟩

/-- The association map a single-key grouping pass builds: keys in
first-encounter order, each carrying its full bucket. -/
def specAMap (key : CanRec → String) (l : List CanRec) : AMap :=
  (firstDedup (l.map key)).map
    (fun g => (g, accOf (l.filter (fun c => key c = g))))

/-- The nested map a two-key grouping pass builds. -/
def specNMap (k1 k2 : CanRec → String) (l : List CanRec) : NMap :=
  (firstDedup (l.map k1)).map
    (fun d => (d, specAMap k2 (l.filter (fun c => k1 c = d))))

/-- All five accumulation maps, characterized at once. -/
def specSt (l : List CanRec) : St :=
  ⟨specAMap (fun c => c.diet) l, specAMap (fun c => c.gender) l,
   specAMap (fun c => c.age) l,
   specNMap (fun c => c.diet) (fun c => c.gender) l,
   specNMap (fun c => c.diet) (fun c => c.age) l⟩

/-- A summary record reports, for every indicator, the arithmetic mean
over its full bucket: the averaging denominator is the number of bucket
members (missing values enter as coerced zeros). -/
def recMean (r : DietData) (b : List CanRec) : Prop :=
  b ≠ [] ∧
  r.ghgs = (b.map (fun c => c.vals.ghgs)).sum / (b.length : ℚ) ∧
  r.landUse = (b.map (fun c => c.vals.landUse)).sum / (b.length : ℚ) ∧
  r.waterScarcity = (b.map (fun c => c.vals.waterScarcity)).sum / (b.length : ℚ) ∧
  r.eutrophication = (b.map (fun c => c.vals.eutrophication)).sum / (b.length : ℚ) ∧
  r.acidification = (b.map (fun c => c.vals.acidification)).sum / (b.length : ℚ) ∧
  r.mean_bio = (b.map (fun c => c.vals.mean_bio)).sum / (b.length : ℚ)

/-! ### Example inputs for concrete instantiations -/

/-- Three rows forming one diet bucket whose ghgs cells carry the
values 10, missing, 20. -/
def rowsMissing : List Row :=
  [[("diet_group", .str "vegan"), ("sex", .str "female"),
    ("age_group", .str "20-29"), ("mean_ghgs", .num 10)],
   [("diet_group", .str "vegan"), ("sex", .str "female"),
    ("age_group", .str "20-29"), ("mean_ghgs", .null)],
   [("diet_group", .str "vegan"), ("sex", .str "female"),
    ("age_group", .str "20-29"), ("mean_ghgs", .num 20)]]

/-- One fully populated row. -/
def rowsOne : List Row :=
  [[("diet_group", .str "vegan"), ("sex", .str "female"),
    ("age_group", .str "20-29"), ("mean_ghgs", .num 2)]]

/-- Rows whose (diet, gender) pairs are first encountered in the
order (vegan, female), (fish, male), (vegan, male). -/
def rowsInterleaved : List Row :=
  [[("diet_group", .str "vegan"), ("sex", .str "female"), ("age_group", .str "20-29")],
   [("diet_group", .str "fish"), ("sex", .str "male"), ("age_group", .str "20-29")],
   [("diet_group", .str "vegan"), ("sex", .str "male"), ("age_group", .str "20-29")]]

/-- A row set whose headers contain no diet-group alias but do contain
a column literally named "undefined". -/
def rowsUndefinedCol : List Row :=
  [[("foo", .str "x"), ("undefined", .str "vegan"), ("mean_ghgs", .num 3)]]

/-- A chart input whose ghgs means are all zero in the filtered subset. -/
def recsAllZero : List DietData :=
  [⟨"vegan", "All", "20-29", 0, 0, 0, 0, 0, 0⟩]

/-- A chart input with ghgs means 2 and 1, so the ghgs maximum is 2. -/
def recsTwo : List DietData :=
  [⟨"vegan", "All", "20-29", 2, 0, 0, 0, 0, 0⟩,
   ⟨"fish", "All", "20-29", 1, 0, 0, 0, 0, 0⟩]

/-! ### Helper lemmas -/

theorem mem_dedupFoldl {α : Type} [DecidableEq α] (l : List α) (acc : List α) (x : α) :
    (x ∈ l.foldl (fun acc y => if y ∈ acc then acc else acc ++ [y]) acc) ↔
      x ∈ acc ∨ x ∈ l := by
  induction l generalizing acc with
  | nil => simp
  | cons y t ih =>
    simp only [List.foldl_cons]
    by_cases h : y ∈ acc
    · rw [if_pos h, ih]
      constructor
      · rintro (hx | hx)
        · exact Or.inl hx
        · exact Or.inr (List.mem_cons_of_mem _ hx)
      · rintro (hx | hx)
        · exact Or.inl hx
        · rcases List.mem_cons.mp hx with rfl | hx
          · exact Or.inl h
          · exact Or.inr hx
    · rw [if_neg h, ih]
      simp only [List.mem_append, List.mem_singleton, List.mem_cons]
      tauto

theorem mem_firstDedup {α : Type} [DecidableEq α] {x : α} {l : List α} :
    x ∈ firstDedup l ↔ x ∈ l := by
  unfold firstDedup
  rw [mem_dedupFoldl]
  simp

theorem firstDedup_snoc {α : Type} [DecidableEq α] (l : List α) (x : α) :
    firstDedup (l ++ [x]) =
      if x ∈ l then firstDedup l else firstDedup l ++ [x] := by
  unfold firstDedup
  rw [List.foldl_append]
  simp only [List.foldl_cons, List.foldl_nil]
  by_cases h : x ∈ l
  · rw [if_pos, if_pos h]
    exact (mem_dedupFoldl l [] x).mpr (Or.inr h)
  · rw [if_neg, if_neg h]
    intro hc
    rcases (mem_dedupFoldl l [] x).mp hc with hc' | hc'
    · simp at hc'
    · exact h hc'

theorem firstDedup_nodup {α : Type} [DecidableEq α] (l : List α) :
    (firstDedup l).Nodup := by
  have key : ∀ acc : List α, acc.Nodup →
      (l.foldl (fun acc y => if y ∈ acc then acc else acc ++ [y]) acc).Nodup := by
    induction l with
    | nil => intro acc h; simpa using h
    | cons y t ih =>
      intro acc h
      simp only [List.foldl_cons]
      by_cases hy : y ∈ acc
      · rw [if_pos hy]; exact ih acc h
      · rw [if_neg hy]
        refine ih _ ?_
        rw [List.nodup_append]
        refine ⟨h, List.nodup_singleton y, ?_⟩
        intro a ha hay
        rw [List.mem_singleton] at hay
        exact hy (hay ▸ ha)
  exact key [] List.nodup_nil

theorem find?_keyed_map {β : Type} (ks : List String) (f : String → β) (k : String) :
    ((ks.map (fun g => (g, f g))).find? (fun p => p.1 == k)) =
      if k ∈ ks then some (k, f k) else none := by
  induction ks with
  | nil => simp
  | cons g t ih =>
    simp only [List.map_cons]
    by_cases h : g = k
    · subst h
      rw [List.find?_cons_of_pos _ (by simp)]
      simp
    · rw [List.find?_cons_of_neg _ (by simp [h]), ih]
      have h' : ¬(k = g) := fun hh => h hh.symm
      simp [List.mem_cons, h']

theorem amFind?_specAMap (key : CanRec → String) (l : List CanRec) (k : String) :
    amFind? (specAMap key l) k =
      if k ∈ l.map key then some (accOf (l.filter (fun c => key c = k))) else none := by
  unfold amFind? specAMap
  rw [find?_keyed_map]
  by_cases h : k ∈ l.map key
  · rw [if_pos (mem_firstDedup.mpr h), if_pos h]
    rfl
  · rw [if_neg (fun hc => h (mem_firstDedup.mp hc)), if_neg h]
    rfl

theorem nmFind?_specNMap (k1 k2 : CanRec → String) (l : List CanRec) (k : String) :
    nmFind? (specNMap k1 k2 l) k =
      if k ∈ l.map k1 then some (specAMap k2 (l.filter (fun c => k1 c = k))) else none := by
  unfold nmFind? specNMap
  rw [find?_keyed_map]
  by_cases h : k ∈ l.map k1
  · rw [if_pos (mem_firstDedup.mpr h), if_pos h]
    rfl
  · rw [if_neg (fun hc => h (mem_firstDedup.mp hc)), if_neg h]
    rfl

theorem accOf_snoc (l : List CanRec) (c : CanRec) :
    accOf (l ++ [c]) = (accOf l).push c.vals := by
  simp [accOf, Samples.push]

theorem accOf_single (c : CanRec) : accOf [c] = Samples.empty.push c.vals := by
  simp [accOf, Samples.push, Samples.empty]

theorem filter_key_snoc_ne (key : CanRec → String) (l : List CanRec) (c : CanRec)
    (g : String) (hg : g ≠ key c) :
    (l ++ [c]).filter (fun x => key x = g) = l.filter (fun x => key x = g) := by
  rw [List.filter_append]
  have hd : decide (key c = g) = false := by
    simp only [decide_eq_false_iff_not]
    exact fun hh => hg hh.symm
  simp [List.filter_cons, hd]

theorem filter_key_snoc_eq (key : CanRec → String) (l : List CanRec) (c : CanRec) :
    (l ++ [c]).filter (fun x => key x = key c) =
      l.filter (fun x => key x = key c) ++ [c] := by
  rw [List.filter_append]
  congr 1
  simp [List.filter_cons]

theorem filter_key_eq_nil (key : CanRec → String) (l : List CanRec) (k : String)
    (h : k ∉ l.map key) :
    l.filter (fun x => key x = k) = [] := by
  rw [List.filter_eq_nil_iff]
  intro a ha
  simp only [decide_eq_true_eq]
  intro hk
  exact h (List.mem_map.mpr ⟨a, ha, hk⟩)

theorem specAMap_snoc (key : CanRec → String) (l : List CanRec) (c : CanRec) :
    amPush (amInit (specAMap key l) (key c)) (key c) c.vals =
      specAMap key (l ++ [c]) := by
  have hdedup : firstDedup ((l ++ [c]).map key) =
      if key c ∈ l.map key then firstDedup (l.map key)
      else firstDedup (l.map key) ++ [key c] := by
    rw [List.map_append, List.map_singleton, firstDedup_snoc]
  by_cases h : key c ∈ l.map key
  · have hinit : amInit (specAMap key l) (key c) = specAMap key l := by
      unfold amInit
      rw [amFind?_specAMap]
      simp [h]
    rw [hinit]
    unfold amPush specAMap
    rw [hdedup, if_pos h, List.map_map]
    refine List.map_congr_left ?_
    intro g hg
    simp only [Function.comp]
    by_cases hgc : g = key c
    · subst hgc
      rw [if_pos (by simp)]
      rw [filter_key_snoc_eq, accOf_snoc]
    · rw [if_neg (by simp [hgc])]
      rw [filter_key_snoc_ne key l c g hgc]
  · have hinit : amInit (specAMap key l) (key c) =
        specAMap key l ++ [(key c, Samples.empty)] := by
      unfold amInit
      rw [amFind?_specAMap]
      simp [h]
    rw [hinit]
    unfold amPush specAMap
    rw [hdedup, if_neg h, List.map_append, List.map_append, List.map_map]
    congr 1
    · refine List.map_congr_left ?_
      intro g hg
      simp only [Function.comp]
      have hgc : g ≠ key c := by
        intro hh
        exact h (hh ▸ mem_firstDedup.mp hg)
      rw [if_neg (by simp [hgc])]
      rw [filter_key_snoc_ne key l c g hgc]
    · simp only [List.map_singleton, if_pos (beq_self_eq_true (key c))]
      rw [filter_key_snoc_eq, filter_key_eq_nil key l (key c) h]
      simp [accOf_single]

theorem nmCombined_step (k1v k2v : String) (v : Vals) (m : NMap) :
    nmPush (nmInitInner m k1v k2v) k1v k2v v =
      m.map (fun p => if p.1 == k1v
        then (p.1, amPush (amInit p.2 k2v) k2v v) else p) := by
  unfold nmPush nmInitInner
  rw [List.map_map]
  refine List.map_congr_left ?_
  intro p hp
  simp only [Function.comp]
  by_cases hpk : p.1 = k1v
  · simp [hpk]
  · simp [hpk]

theorem specNMap_snoc (k1 k2 : CanRec → String) (l : List CanRec) (c : CanRec) :
    nmPush (nmInitInner (nmInit (specNMap k1 k2 l) (k1 c)) (k1 c) (k2 c))
        (k1 c) (k2 c) c.vals =
      specNMap k1 k2 (l ++ [c]) := by
  by_cases h : k1 c ∈ l.map k1
  · have hinit : nmInit (specNMap k1 k2 l) (k1 c) = specNMap k1 k2 l := by
      unfold nmInit
      rw [nmFind?_specNMap]
      simp [h]
    rw [hinit, nmCombined_step]
    unfold specNMap
    have hdedup : firstDedup ((l ++ [c]).map k1) = firstDedup (l.map k1) := by
      rw [List.map_append, List.map_singleton, firstDedup_snoc, if_pos h]
    rw [hdedup, List.map_map]
    refine List.map_congr_left ?_
    intro d hd
    simp only [Function.comp]
    by_cases hdc : d = k1 c
    · subst hdc
      rw [if_pos (by simp)]
      rw [filter_key_snoc_eq]
      rw [specAMap_snoc]
    · rw [if_neg (by simp [hdc])]
      rw [filter_key_snoc_ne k1 l c d hdc]
  · have hinit : nmInit (specNMap k1 k2 l) (k1 c) =
        specNMap k1 k2 l ++ [(k1 c, [])] := by
      unfold nmInit
      rw [nmFind?_specNMap]
      simp [h]
    rw [hinit, nmCombined_step, List.map_append]
    unfold specNMap
    have hdedup : firstDedup ((l ++ [c]).map k1) =
        firstDedup (l.map k1) ++ [k1 c] := by
      rw [List.map_append, List.map_singleton, firstDedup_snoc, if_neg h]
    rw [hdedup, List.map_append, List.map_map]
    congr 1
    · refine List.map_congr_left ?_
      intro d hd
      simp only [Function.comp]
      have hdc : d ≠ k1 c := fun hh => h (hh ▸ mem_firstDedup.mp hd)
      rw [if_neg (by simp [hdc])]
      rw [filter_key_snoc_ne k1 l c d hdc]
    · simp only [List.map_singleton, if_pos (beq_self_eq_true (k1 c))]
      rw [filter_key_snoc_eq, filter_key_eq_nil k1 l (k1 c) h]
      have he : ([] : AMap) = specAMap k2 [] := rfl
      rw [he, specAMap_snoc]

theorem specSt_nil : specSt [] = St.empty := rfl

theorem stepRow_spec (cols : Cols) (l : List CanRec) (r : Row) :
    stepRow cols (specSt l) r = specSt (l ++ (canonRow cols r).toList) := by
  cases h : canonRow cols r with
  | none => simp [stepRow, h]
  | some c =>
    simp only [stepRow, h, Option.toList_some]
    unfold specSt
    simp only [St.mk.injEq]
    exact ⟨specAMap_snoc _ l c, specAMap_snoc _ l c, specAMap_snoc _ l c,
      specNMap_snoc _ _ l c, specNMap_snoc _ _ l c⟩

/-- Master characterization: after the forEach loop each of the five
accumulation maps is exactly its grouping of the canonical records. -/
theorem finalState_spec (cols : Cols) (data : List Row) :
    finalState cols data = specSt (canonRows cols data) := by
  have key : ∀ l, data.foldl (stepRow cols) (specSt l) =
      specSt (l ++ canonRows cols data) := by
    induction data with
    | nil => intro l; simp [canonRows]
    | cons r t ih =>
      intro l
      simp only [List.foldl_cons]
      rw [stepRow_spec, ih]
      congr 1
      rw [List.append_assoc]
      congr 1
      cases h : canonRow cols r <;> simp [canonRows, List.filterMap_cons, h]
  have h0 := key []
  rw [List.nil_append] at h0
  rw [finalState, ← specSt_nil]
  exact h0

theorem insertBy_perm {α : Type} (le : α → α → Bool) (x : α) (l : List α) :
    (insertBy le x l).Perm (x :: l) := by
  induction l with
  | nil => exact List.Perm.refl _
  | cons z t ih =>
    simp only [insertBy]
    by_cases h : le x z
    · rw [if_pos h]
    · rw [if_neg h]
      exact (List.Perm.cons z ih).trans (List.Perm.swap x z t)

theorem sortBy_perm {α : Type} (le : α → α → Bool) (l : List α) :
    (sortBy le l).Perm l := by
  induction l with
  | nil => exact List.Perm.refl _
  | cons x t ih =>
    simp only [sortBy]
    exact (insertBy_perm le x (sortBy le t)).trans (List.Perm.cons x ih)

theorem jsEntries_perm {β : Type} (m : List (String × β)) : (jsEntries m).Perm m := by
  unfold jsEntries
  refine ((sortBy_perm _ _).append_right _).trans ?_
  exact List.filter_append_perm _ m

theorem mem_jsEntries {β : Type} {p : String × β} {m : List (String × β)} :
    p ∈ jsEntries m ↔ p ∈ m :=
  (jsEntries_perm m).mem_iff

theorem jsEntries_eq_self {β : Type} (m : List (String × β))
    (h : ∀ p ∈ m, isArrayIndex p.1 = false) : jsEntries m = m := by
  unfold jsEntries
  have h1 : m.filter (fun p => isArrayIndex p.1) = [] := by
    rw [List.filter_eq_nil_iff]
    intro a ha
    simp [h a ha]
  have h2 : m.filter (fun p => !isArrayIndex p.1) = m := by
    rw [List.filter_eq_self]
    intro a ha
    simp [h a ha]
  rw [h1, h2]
  rfl

theorem mem_specAMap {key : CanRec → String} {l : List CanRec} {p : String × Samples} :
    p ∈ specAMap key l ↔
      ∃ g, g ∈ l.map key ∧ p = (g, accOf (l.filter (fun c => key c = g))) := by
  unfold specAMap
  rw [List.mem_map]
  constructor
  · rintro ⟨g, hg, rfl⟩
    exact ⟨g, mem_firstDedup.mp hg, rfl⟩
  · rintro ⟨g, hg, rfl⟩
    exact ⟨g, mem_firstDedup.mpr hg, rfl⟩

theorem mem_specNMap {k1 k2 : CanRec → String} {l : List CanRec} {p : String × AMap} :
    p ∈ specNMap k1 k2 l ↔
      ∃ d, d ∈ l.map k1 ∧ p = (d, specAMap k2 (l.filter (fun c => k1 c = d))) := by
  unfold specNMap
  rw [List.mem_map]
  constructor
  · rintro ⟨d, hd, rfl⟩
    exact ⟨d, mem_firstDedup.mp hd, rfl⟩
  · rintro ⟨d, hd, rfl⟩
    exact ⟨d, mem_firstDedup.mpr hd, rfl⟩

theorem mem_dietSection {cols : Cols} {data : List Row} {r : DietData} :
    r ∈ dietSection (finalState cols data) ↔
      ∃ g, g ∈ (canonRows cols data).map (fun c => c.diet) ∧
        r = accRecord g "All" "All"
          (accOf ((canonRows cols data).filter (fun c => c.diet = g))) := by
  rw [finalState_spec]
  unfold dietSection specSt
  rw [List.mem_map]
  constructor
  · rintro ⟨p, hp, rfl⟩
    rcases mem_specAMap.mp (mem_jsEntries.mp hp) with ⟨g, hg, rfl⟩
    exact ⟨g, hg, rfl⟩
  · rintro ⟨g, hg, rfl⟩
    exact ⟨(g, accOf _), mem_jsEntries.mpr (mem_specAMap.mpr ⟨g, hg, rfl⟩), rfl⟩

theorem mem_genderSection {cols : Cols} {data : List Row} {r : DietData} :
    r ∈ genderSection (finalState cols data) ↔
      ∃ g, g ∈ (canonRows cols data).map (fun c => c.gender) ∧
        r = accRecord "All" g "All"
          (accOf ((canonRows cols data).filter (fun c => c.gender = g))) := by
  rw [finalState_spec]
  unfold genderSection specSt
  rw [List.mem_map]
  constructor
  · rintro ⟨p, hp, rfl⟩
    rcases mem_specAMap.mp (mem_jsEntries.mp hp) with ⟨g, hg, rfl⟩
    exact ⟨g, hg, rfl⟩
  · rintro ⟨g, hg, rfl⟩
    exact ⟨(g, accOf _), mem_jsEntries.mpr (mem_specAMap.mpr ⟨g, hg, rfl⟩), rfl⟩

theorem mem_ageSection {cols : Cols} {data : List Row} {r : DietData} :
    r ∈ ageSection (finalState cols data) ↔
      ∃ g, g ∈ (canonRows cols data).map (fun c => c.age) ∧
        r = accRecord "All" "All" g
          (accOf ((canonRows cols data).filter (fun c => c.age = g))) := by
  rw [finalState_spec]
  unfold ageSection specSt
  rw [List.mem_map]
  constructor
  · rintro ⟨p, hp, rfl⟩
    rcases mem_specAMap.mp (mem_jsEntries.mp hp) with ⟨g, hg, rfl⟩
    exact ⟨g, hg, rfl⟩
  · rintro ⟨g, hg, rfl⟩
    exact ⟨(g, accOf _), mem_jsEntries.mpr (mem_specAMap.mpr ⟨g, hg, rfl⟩), rfl⟩

theorem mem_dietGenderSection {cols : Cols} {data : List Row} {r : DietData} :
    r ∈ dietGenderSection (finalState cols data) ↔
      ∃ d g, d ∈ (canonRows cols data).map (fun c => c.diet) ∧
        g ∈ ((canonRows cols data).filter (fun c => c.diet = d)).map (fun c => c.gender) ∧
        r = accRecord d g "All"
          (accOf (((canonRows cols data).filter (fun c => c.diet = d)).filter
            (fun c => c.gender = g))) := by
  rw [finalState_spec]
  unfold dietGenderSection specSt
  rw [List.mem_flatMap]
  constructor
  · rintro ⟨p, hp, hr⟩
    rcases mem_specNMap.mp (mem_jsEntries.mp hp) with ⟨d, hd, rfl⟩
    rw [List.mem_map] at hr
    rcases hr with ⟨q, hq, rfl⟩
    rcases mem_specAMap.mp (mem_jsEntries.mp hq) with ⟨g, hg, rfl⟩
    exact ⟨d, g, hd, hg, rfl⟩
  · rintro ⟨d, g, hd, hg, rfl⟩
    refine ⟨(d, specAMap (fun c => c.gender)
      ((canonRows cols data).filter (fun c => c.diet = d))),
      mem_jsEntries.mpr (mem_specNMap.mpr ⟨d, hd, rfl⟩), ?_⟩
    rw [List.mem_map]
    exact ⟨(g, accOf _), mem_jsEntries.mpr (mem_specAMap.mpr ⟨g, hg, rfl⟩), rfl⟩

theorem mem_dietAgeSection {cols : Cols} {data : List Row} {r : DietData} :
    r ∈ dietAgeSection (finalState cols data) ↔
      ∃ d g, d ∈ (canonRows cols data).map (fun c => c.diet) ∧
        g ∈ ((canonRows cols data).filter (fun c => c.diet = d)).map (fun c => c.age) ∧
        r = accRecord d "All" g
          (accOf (((canonRows cols data).filter (fun c => c.diet = d)).filter
            (fun c => c.age = g))) := by
  rw [finalState_spec]
  unfold dietAgeSection specSt
  rw [List.mem_flatMap]
  constructor
  · rintro ⟨p, hp, hr⟩
    rcases mem_specNMap.mp (mem_jsEntries.mp hp) with ⟨d, hd, rfl⟩
    rw [List.mem_map] at hr
    rcases hr with ⟨q, hq, rfl⟩
    rcases mem_specAMap.mp (mem_jsEntries.mp hq) with ⟨g, hg, rfl⟩
    exact ⟨d, g, hd, hg, rfl⟩
  · rintro ⟨d, g, hd, hg, rfl⟩
    refine ⟨(d, specAMap (fun c => c.age)
      ((canonRows cols data).filter (fun c => c.diet = d))),
      mem_jsEntries.mpr (mem_specNMap.mpr ⟨d, hd, rfl⟩), ?_⟩
    rw [List.mem_map]
    exact ⟨(g, accOf _), mem_jsEntries.mpr (mem_specAMap.mpr ⟨g, hg, rfl⟩), rfl⟩

theorem accRecord_recMean (d g a : String) (b : List CanRec) (hb : b ≠ []) :
    recMean (accRecord d g a (accOf b)) b := by
  have hlen : 0 < b.length := List.length_pos.mpr hb
  refine ⟨hb, ?_, ?_, ?_, ?_, ?_, ?_⟩ <;>
    simp [accRecord, accOf, avgQ, List.length_map, hlen]

theorem lowerChar_ne_A (c : Char) : lowerChar c ≠ 'A' := by
  unfold lowerChar
  cases hf : lowerTable.find? (fun p => p.1 == c) with
  | none =>
    intro hc
    subst hc
    have hA : ('A', 'a') ∈ lowerTable := by decide
    have := List.find?_eq_none.mp hf _ hA
    simp at this
  | some p =>
    have hp : p ∈ lowerTable := List.mem_of_find?_eq_some hf
    have hval : ∀ q ∈ lowerTable, q.2 ≠ 'A' := by decide
    exact hval p hp

theorem jsToLower_ne_All (s : String) : jsToLower s ≠ "All" := by
  unfold jsToLower
  intro h
  have hd : s.data.map lowerChar = ("All" : String).data := congrArg String.data h
  have hAll : ("All" : String).data = ['A', 'l', 'l'] := rfl
  rw [hAll] at hd
  cases ht : s.data with
  | nil =>
    rw [ht] at hd
    exact absurd hd (by decide)
  | cons a t =>
    rw [ht] at hd
    simp only [List.map_cons, List.cons.injEq] at hd
    exact lowerChar_ne_A a hd.1

theorem cleanString_ne_All (v : Cell) : cleanString v ≠ "All" := by
  unfold cleanString
  by_cases h : cellTruthy v
  · rw [if_pos h]
    exact jsToLower_ne_All _
  · rw [if_neg h]
    decide

theorem lookupT_mem_values {m : List (String × String)} {k v : String}
    (h : lookupT m k = some v) : v ∈ m.map (fun p => p.2) := by
  unfold lookupT at h
  cases hf : m.find? (fun p => p.1 == k) with
  | none => rw [hf] at h; simp at h
  | some p =>
    rw [hf] at h
    simp only [Option.map_some', Option.some.injEq] at h
    exact List.mem_map.mpr ⟨p, List.mem_of_find?_eq_some hf, h⟩

theorem standardDietGroup_cases (s : String) :
    standardDietGroup s = s ∨
      standardDietGroup s ∈
        ["vegan", "vegetarian", "fish", "low_meat", "medium_meat", "high_meat"] := by
  unfold standardDietGroup
  cases hl : lookupT dietGroupMapping s with
  | none => left; rfl
  | some v =>
    right
    have hv := lookupT_mem_values hl
    simpa [dietGroupMapping] using hv

theorem standardDietGroup_ne_All {s : String} (h : s ≠ "All") :
    standardDietGroup s ≠ "All" := by
  rcases standardDietGroup_cases s with he | hm
  · rw [he]; exact h
  · intro hc
    rw [hc] at hm
    exact absurd hm (by decide)

theorem standardGender_range (s : String) :
    standardGender s ∈ ["Female", "Male", "Unknown"] := by
  unfold standardGender
  by_cases h : s = ""
  · simp [h]
  · rw [if_neg h]
    cases hl : lookupT genderMapping s with
    | none => simp
    | some v =>
      have hv : v = "Female" ∨ v = "Male" := by
        simpa [genderMapping] using lookupT_mem_values hl
      simp only [Option.getD_some]
      rcases hv with rfl | rfl <;> decide

theorem standardAgeGroup_range (s : String) :
    standardAgeGroup s ∈
      ["20-29", "30-39", "40-49", "50-59", "60-69", "70-79", "Unknown"] := by
  unfold standardAgeGroup
  by_cases h : s = ""
  · simp [h]
  · rw [if_neg h]
    cases hl : lookupT ageGroupMapping s with
    | none => simp
    | some v =>
      have hv : v = "20-29" ∨ v = "30-39" ∨ v = "40-49" ∨ v = "50-59" ∨
          v = "60-69" ∨ v = "70-79" := by
        simpa [ageGroupMapping] using lookupT_mem_values hl
      simp only [Option.getD_some]
      rcases hv with rfl | rfl | rfl | rfl | rfl | rfl <;> decide

theorem canonRow_eq_some {cols : Cols} {r : Row} {c : CanRec}
    (h : canonRow cols r = some c) :
    cleanString (rowGet r cols.dietGroup) ≠ "" ∧
      c = ⟨standardDietGroup (cleanString (rowGet r cols.dietGroup)),
           standardGender (cleanString (rowGet r cols.gender)),
           standardAgeGroup (cleanString (rowGet r cols.ageGroup)),
           canonVals cols r⟩ := by
  unfold canonRow at h
  by_cases hd : cleanString (rowGet r cols.dietGroup) = ""
  · rw [if_pos hd] at h; cases h
  · rw [if_neg hd] at h
    injection h with h
    exact ⟨hd, h.symm⟩

theorem canon_diet_ne_All {cols : Cols} {data : List Row} {c : CanRec}
    (hc : c ∈ canonRows cols data) : c.diet ≠ "All" := by
  rcases List.mem_filterMap.mp hc with ⟨r, _, hcr⟩
  rcases canonRow_eq_some hcr with ⟨_, rfl⟩
  exact standardDietGroup_ne_All (cleanString_ne_All _)

theorem canon_gender_range {cols : Cols} {data : List Row} {c : CanRec}
    (hc : c ∈ canonRows cols data) : c.gender ∈ ["Female", "Male", "Unknown"] := by
  rcases List.mem_filterMap.mp hc with ⟨r, _, hcr⟩
  rcases canonRow_eq_some hcr with ⟨_, rfl⟩
  exact standardGender_range _

theorem canon_age_range {cols : Cols} {data : List Row} {c : CanRec}
    (hc : c ∈ canonRows cols data) :
    c.age ∈ ["20-29", "30-39", "40-49", "50-59", "60-69", "70-79", "Unknown"] := by
  rcases List.mem_filterMap.mp hc with ⟨r, _, hcr⟩
  rcases canonRow_eq_some hcr with ⟨_, rfl⟩
  exact standardAgeGroup_range _

theorem canon_gender_ne_All {cols : Cols} {data : List Row} {c : CanRec}
    (hc : c ∈ canonRows cols data) : c.gender ≠ "All" := by
  have h := canon_gender_range hc
  intro hcg
  rw [hcg] at h
  exact absurd h (by decide)

theorem canon_age_ne_All {cols : Cols} {data : List Row} {c : CanRec}
    (hc : c ∈ canonRows cols data) : c.age ≠ "All" := by
  have h := canon_age_range hc
  intro hcg
  rw [hcg] at h
  exact absurd h (by decide)

theorem lookupT_eq_none {m : List (String × String)} {k : String}
    (h : k ∉ m.map (fun p => p.1)) : lookupT m k = none := by
  unfold lookupT
  have hf : m.find? (fun p => p.1 == k) = none := by
    rw [List.find?_eq_none]
    intro p hp
    simp only [beq_iff_eq]
    intro hk
    exact h (List.mem_map.mpr ⟨p, hp, hk⟩)
  rw [hf]
  rfl

theorem filter_filter_prop {α : Type} (l : List α) (p q : α → Prop)
    [DecidablePred p] [DecidablePred q] :
    (l.filter (fun c => p c)).filter (fun c => q c) =
      l.filter (fun c => p c ∧ q c) := by
  induction l with
  | nil => rfl
  | cons c t ih =>
    by_cases hp : p c <;> by_cases hq : q c <;>
      simp [List.filter_cons, hp, hq, ih]

theorem exists_canon {data : List Row}
    (h : ∃ r ∈ data, cleanString (rowGet r (computeCols data).dietGroup) ≠ "") :
    ∃ c, c ∈ canonRows (computeCols data) data := by
  obtain ⟨r, hr, hne⟩ := h
  have hrsome : canonRow (computeCols data) r =
      some ⟨standardDietGroup (cleanString (rowGet r (computeCols data).dietGroup)),
            standardGender (cleanString (rowGet r (computeCols data).gender)),
            standardAgeGroup (cleanString (rowGet r (computeCols data).ageGroup)),
            canonVals (computeCols data) r⟩ := by
    unfold canonRow
    rw [if_neg hne]
  exact ⟨_, List.mem_filterMap.mpr ⟨r, hr, hrsome⟩⟩

/-! ### Claim theorems -/

/-- C6: category canonicalization maps the cleaned (trimmed,
lower-cased) diet code through the table vegan-to-vegan,
veggie-to-vegetarian, fish-to-fish, meat-to-low_meat,
meat50-to-medium_meat, meat100-to-high_meat and passes any
unrecognized diet code through verbatim, while the cleaned gender code
maps female-to-Female and male-to-Male and the age code maps through
the identity table over the six brackets 20-29 to 70-79; any
unrecognized or empty gender or age code maps to "Unknown". -/
theorem canonicalization_tables_correct :
    (standardDietGroup "vegan" = "vegan" ∧ standardDietGroup "veggie" = "vegetarian" ∧
      standardDietGroup "fish" = "fish" ∧ standardDietGroup "meat" = "low_meat" ∧
      standardDietGroup "meat50" = "medium_meat" ∧
      standardDietGroup "meat100" = "high_meat") ∧
    (∀ s : String, s ∉ ["vegan", "veggie", "fish", "meat", "meat50", "meat100"] →
      standardDietGroup s = s) ∧
    (standardGender "female" = "Female" ∧ standardGender "male" = "Male") ∧
    (∀ s : String, s ∉ ["female", "male"] → standardGender s = "Unknown") ∧
    (∀ s, s ∈ ["20-29", "30-39", "40-49", "50-59", "60-69", "70-79"] →
      standardAgeGroup s = s) ∧
    (∀ s : String, s ∉ ["20-29", "30-39", "40-49", "50-59", "60-69", "70-79"] →
      standardAgeGroup s = "Unknown") := by
  refine ⟨by decide, ?_, by decide, ?_, by decide, ?_⟩
  · intro s hs
    unfold standardDietGroup
    rw [lookupT_eq_none ?_]
    · rfl
    · have hk : dietGroupMapping.map (fun p => p.1) =
          ["vegan", "veggie", "fish", "meat", "meat50", "meat100"] := by decide
      rw [hk]
      exact hs
  · intro s hs
    unfold standardGender
    by_cases h0 : s = ""
    · rw [if_pos h0]
    · rw [if_neg h0, lookupT_eq_none ?_]
      · rfl
      · have hk : genderMapping.map (fun p => p.1) = ["female", "male"] := by decide
        rw [hk]
        exact hs
  · intro s hs
    unfold standardAgeGroup
    by_cases h0 : s = ""
    · rw [if_pos h0]
    · rw [if_neg h0, lookupT_eq_none ?_]
      · rfl
      · have hk : ageGroupMapping.map (fun p => p.1) =
          ["20-29", "30-39", "40-49", "50-59", "60-69", "70-79"] := by decide
        rw [hk]
        exact hs

/-- Witness for C6 at concrete unrecognized codes. -/
theorem canonicalization_tables_correct_witness :
    standardDietGroup "flexitarian" = "flexitarian" ∧
    standardGender "" = "Unknown" ∧ standardGender "other" = "Unknown" ∧
    standardAgeGroup "80-89" = "Unknown" :=
  ⟨canonicalization_tables_correct.2.1 "flexitarian" (by decide),
   canonicalization_tables_correct.2.2.2.1 "" (by decide),
   canonicalization_tables_correct.2.2.2.1 "other" (by decide),
   canonicalization_tables_correct.2.2.2.2.2 "80-89" (by decide)⟩

/-- C7: numeric coercion returns number cells unchanged; for other
cells it trims, turns commas into dots, and parses, with empty, null,
or unparseable input coerced to 0; "2,5" coerces to 2.5 and "" and
null coerce to 0. -/
theorem safeParseFloat_behavior :
    (∀ q : ℚ, safeParseFloat (.num q) = q) ∧
    safeParseFloat .null = 0 ∧
    safeParseFloat (.str "") = 0 ∧
    safeParseFloat (.str "2,5") = 5/2 ∧
    (∀ s : String, jsParseFloat (commaToDot (jsTrim s)) = none →
      safeParseFloat (.str s) = 0) ∧
    (∀ (s : String) (q : ℚ), jsParseFloat (commaToDot (jsTrim s)) = some q →
      safeParseFloat (.str s) = q) := by
  refine ⟨fun q => rfl, rfl, by with_unfolding_all decide,
    by with_unfolding_all decide, ?_, ?_⟩
  · intro s h
    simp only [safeParseFloat]
    by_cases h0 : s = ""
    · rw [if_pos h0]
    · rw [if_neg h0, h]
      rfl
  · intro s q h
    simp only [safeParseFloat]
    by_cases h0 : s = ""
    · exfalso
      have hnone : jsParseFloat (commaToDot (jsTrim "")) = none := by
        with_unfolding_all decide
      rw [h0, hnone] at h
      cases h
    · rw [if_neg h0, h]
      rfl

/-- Witness for C7 at a concrete unparseable and a concrete parseable
string. -/
theorem safeParseFloat_behavior_witness :
    safeParseFloat (.str "abc") = 0 ∧ safeParseFloat (.str " 3,5x ") = 7/2 :=
  ⟨safeParseFloat_behavior.2.2.2.2.1 "abc" (by with_unfolding_all decide),
   safeParseFloat_behavior.2.2.2.2.2 " 3,5x " (7/2) (by with_unfolding_all decide)⟩

/-- C8: rows whose cleaned diet-group label is empty are dropped
before aggregation and contribute to no bucket of any grouping kind:
removing them leaves the entire output unchanged. -/
theorem emptyDietRows_contributeNothing (cols : Cols) (data : List Row) :
    loadDataWithCols cols
        (data.filter (fun r => cleanString (rowGet r cols.dietGroup) != "")) =
      loadDataWithCols cols data := by
  have hcanon : canonRows cols
      (data.filter (fun r => cleanString (rowGet r cols.dietGroup) != "")) =
      canonRows cols data := by
    unfold canonRows
    induction data with
    | nil => rfl
    | cons r t ih =>
      by_cases hr : cleanString (rowGet r cols.dietGroup) = ""
      · have hnone : canonRow cols r = none := by
          unfold canonRow
          rw [if_pos hr]
        simp [List.filter_cons, hr, List.filterMap_cons, hnone, ih]
      · cases hc : canonRow cols r <;>
          simp [List.filter_cons, hr, List.filterMap_cons, hc, ih]
  have hst : finalState cols
      (data.filter (fun r => cleanString (rowGet r cols.dietGroup) != "")) =
      finalState cols data := by
    rw [finalState_spec, finalState_spec, hcanon]
  simp only [loadDataWithCols, hst]

/-- C10: whenever some input row has a non-empty cleaned diet label,
each of the three deduplicated label lists contains the sentinel
label "All", because single-dimension records report "All" for the
dimensions they do not group by. -/
theorem sentinelAll_in_labelLists (data : List Row)
    (h : ∃ r ∈ data, cleanString (rowGet r (computeCols data).dietGroup) ≠ "") :
    "All" ∈ dietGroupsList data ∧ "All" ∈ genderGroupsList data ∧
      "All" ∈ ageGroupsList data := by
  obtain ⟨r, hr, hne⟩ := h
  have hrsome : canonRow (computeCols data) r =
      some ⟨standardDietGroup (cleanString (rowGet r (computeCols data).dietGroup)),
            standardGender (cleanString (rowGet r (computeCols data).gender)),
            standardAgeGroup (cleanString (rowGet r (computeCols data).ageGroup)),
            canonVals (computeCols data) r⟩ := by
    unfold canonRow
    rw [if_neg hne]
  obtain ⟨c0, hc0⟩ : ∃ c, c ∈ canonRows (computeCols data) data :=
    ⟨_, List.mem_filterMap.mpr ⟨r, hr, hrsome⟩⟩
  have hload : loadData data =
      dietSection (finalState (computeCols data) data) ++
      genderSection (finalState (computeCols data) data) ++
      ageSection (finalState (computeCols data) data) ++
      dietGenderSection (finalState (computeCols data) data) ++
      dietAgeSection (finalState (computeCols data) data) := rfl
  have hG : accRecord "All" c0.gender "All"
      (accOf ((canonRows (computeCols data) data).filter
        (fun c => c.gender = c0.gender))) ∈ loadData data := by
    rw [hload]
    have hmem := mem_genderSection.mpr
      ⟨c0.gender, List.mem_map.mpr ⟨c0, hc0, rfl⟩, rfl⟩
    simp only [List.mem_append]
    exact Or.inl (Or.inl (Or.inl (Or.inr hmem)))
  have hD : accRecord c0.diet "All" "All"
      (accOf ((canonRows (computeCols data) data).filter
        (fun c => c.diet = c0.diet))) ∈ loadData data := by
    rw [hload]
    have hmem := mem_dietSection.mpr
      ⟨c0.diet, List.mem_map.mpr ⟨c0, hc0, rfl⟩, rfl⟩
    simp only [List.mem_append]
    exact Or.inl (Or.inl (Or.inl (Or.inl hmem)))
  refine ⟨?_, ?_, ?_⟩
  · exact mem_firstDedup.mpr (List.mem_map.mpr ⟨_, hG, rfl⟩)
  · exact mem_firstDedup.mpr (List.mem_map.mpr ⟨_, hD, rfl⟩)
  · exact mem_firstDedup.mpr (List.mem_map.mpr ⟨_, hD, rfl⟩)

/-- Witness for C10 at a concrete one-row input. -/
theorem sentinelAll_in_labelLists_witness :
    "All" ∈ dietGroupsList rowsOne ∧ "All" ∈ genderGroupsList rowsOne ∧
      "All" ∈ ageGroupsList rowsOne :=
  sentinelAll_in_labelLists rowsOne (by decide)

/-- C1 counterexample: on the input whose vegan bucket carries the
ghgs values 10, missing, 20, the emitted diet record reports mean 10,
not 15 — the missing value is coerced to 0 and counted in the
averaging denominator. -/
theorem missingValue_counted_counterexample :
    (loadData rowsMissing).head?.map (fun r => r.ghgs) = some 10 ∧
    ¬ (loadData rowsMissing).head?.map (fun r => r.ghgs) = some 15 := by
  with_unfolding_all decide

/-- C1 amended: for every bucket of every grouping kind, each emitted
record's indicator means divide by the full bucket size: every record
of the bucket is counted in the averaging denominator, with missing or
unparseable values contributing coerced zeros. -/
theorem bucketMeans_fullDenominator (cols : Cols) (data : List Row) :
    (∀ r ∈ dietSection (finalState cols data),
      recMean r ((canonRows cols data).filter (fun c => c.diet = r.dietGroup))) ∧
    (∀ r ∈ genderSection (finalState cols data),
      recMean r ((canonRows cols data).filter (fun c => c.gender = r.gender))) ∧
    (∀ r ∈ ageSection (finalState cols data),
      recMean r ((canonRows cols data).filter (fun c => c.age = r.ageGroup))) ∧
    (∀ r ∈ dietGenderSection (finalState cols data),
      recMean r ((canonRows cols data).filter
        (fun c => c.diet = r.dietGroup ∧ c.gender = r.gender))) ∧
    (∀ r ∈ dietAgeSection (finalState cols data),
      recMean r ((canonRows cols data).filter
        (fun c => c.diet = r.dietGroup ∧ c.age = r.ageGroup))) := by
  refine ⟨?_, ?_, ?_, ?_, ?_⟩
  · intro r hr
    rcases mem_dietSection.mp hr with ⟨g, hg, rfl⟩
    have hne : (canonRows cols data).filter (fun c => c.diet = g) ≠ [] := by
      rcases List.mem_map.mp hg with ⟨c, hc, hcg⟩
      exact List.ne_nil_of_mem (List.mem_filter.mpr ⟨hc, by simp [hcg]⟩)
    exact accRecord_recMean _ _ _ _ hne
  · intro r hr
    rcases mem_genderSection.mp hr with ⟨g, hg, rfl⟩
    have hne : (canonRows cols data).filter (fun c => c.gender = g) ≠ [] := by
      rcases List.mem_map.mp hg with ⟨c, hc, hcg⟩
      exact List.ne_nil_of_mem (List.mem_filter.mpr ⟨hc, by simp [hcg]⟩)
    exact accRecord_recMean _ _ _ _ hne
  · intro r hr
    rcases mem_ageSection.mp hr with ⟨g, hg, rfl⟩
    have hne : (canonRows cols data).filter (fun c => c.age = g) ≠ [] := by
      rcases List.mem_map.mp hg with ⟨c, hc, hcg⟩
      exact List.ne_nil_of_mem (List.mem_filter.mpr ⟨hc, by simp [hcg]⟩)
    exact accRecord_recMean _ _ _ _ hne
  · intro r hr
    rcases mem_dietGenderSection.mp hr with ⟨d, g, hd, hg, rfl⟩
    show recMean _ ((canonRows cols data).filter (fun c => c.diet = d ∧ c.gender = g))
    rw [← filter_filter_prop (canonRows cols data)
      (fun c => c.diet = d) (fun c => c.gender = g)]
    have hne : ((canonRows cols data).filter (fun c => c.diet = d)).filter
        (fun c => c.gender = g) ≠ [] := by
      rcases List.mem_map.mp hg with ⟨c, hc, hcg⟩
      exact List.ne_nil_of_mem (List.mem_filter.mpr ⟨hc, by simp [hcg]⟩)
    exact accRecord_recMean _ _ _ _ hne
  · intro r hr
    rcases mem_dietAgeSection.mp hr with ⟨d, g, hd, hg, rfl⟩
    show recMean _ ((canonRows cols data).filter (fun c => c.diet = d ∧ c.age = g))
    rw [← filter_filter_prop (canonRows cols data)
      (fun c => c.diet = d) (fun c => c.age = g)]
    have hne : ((canonRows cols data).filter (fun c => c.diet = d)).filter
        (fun c => c.age = g) ≠ [] := by
      rcases List.mem_map.mp hg with ⟨c, hc, hcg⟩
      exact List.ne_nil_of_mem (List.mem_filter.mpr ⟨hc, by simp [hcg]⟩)
    exact accRecord_recMean _ _ _ _ hne

/-- Witness for C1 amended at rowsMissing: the vegan bucket holds all
three records and its mean is 10. -/
theorem bucketMeans_fullDenominator_witness :
    recMean ⟨"vegan", "All", "All", 10, 0, 0, 0, 0, 0⟩
      ((canonRows (computeCols rowsMissing) rowsMissing).filter
        (fun c => c.diet = "vegan")) :=
  (bucketMeans_fullDenominator (computeCols rowsMissing) rowsMissing).1
    ⟨"vegan", "All", "All", 10, 0, 0, 0, 0, 0⟩ (by with_unfolding_all decide)

/-- C2 counterexample: for a one-row input with a non-empty diet
label, the output contains no record of the overall All kind — no
record carries the sentinel "All" in all three dimensions. -/
theorem allKindRecord_counterexample :
    (∃ r ∈ rowsOne, cleanString (rowGet r (computeCols rowsOne).dietGroup) ≠ "") ∧
    ¬ ∃ r ∈ loadData rowsOne,
        r.dietGroup = "All" ∧ r.gender = "All" ∧ r.ageGroup = "All" := by
  with_unfolding_all decide

/-- C2 amended: whenever some input row has a non-empty cleaned diet
label, the output contains records of exactly the five computed
grouping kinds — DietGroup, Gender, AgeGroup, DietGroup-Gender,
DietGroup-AgeGroup — with dimensions not grouped by reported as the
sentinel "All"; no record of the overall All kind is produced. -/
theorem fiveGroupKinds (data : List Row)
    (h : ∃ r ∈ data, cleanString (rowGet r (computeCols data).dietGroup) ≠ "") :
    (∃ r ∈ loadData data, r.dietGroup ≠ "All" ∧ r.gender = "All" ∧ r.ageGroup = "All") ∧
    (∃ r ∈ loadData data, r.dietGroup = "All" ∧ r.gender ≠ "All" ∧ r.ageGroup = "All") ∧
    (∃ r ∈ loadData data, r.dietGroup = "All" ∧ r.gender = "All" ∧ r.ageGroup ≠ "All") ∧
    (∃ r ∈ loadData data, r.dietGroup ≠ "All" ∧ r.gender ≠ "All" ∧ r.ageGroup = "All") ∧
    (∃ r ∈ loadData data, r.dietGroup ≠ "All" ∧ r.gender = "All" ∧ r.ageGroup ≠ "All") ∧
    (∀ r ∈ loadData data,
      ¬(r.dietGroup = "All" ∧ r.gender = "All" ∧ r.ageGroup = "All")) := by
  obtain ⟨c0, hc0⟩ := exists_canon h
  have hload : loadData data =
      dietSection (finalState (computeCols data) data) ++
      genderSection (finalState (computeCols data) data) ++
      ageSection (finalState (computeCols data) data) ++
      dietGenderSection (finalState (computeCols data) data) ++
      dietAgeSection (finalState (computeCols data) data) := rfl
  have hcfilter : c0 ∈ (canonRows (computeCols data) data).filter
      (fun c => c.diet = c0.diet) := List.mem_filter.mpr ⟨hc0, by simp⟩
  refine ⟨?_, ?_, ?_, ?_, ?_, ?_⟩
  · refine ⟨accRecord c0.diet "All" "All"
      (accOf ((canonRows (computeCols data) data).filter
        (fun c => c.diet = c0.diet))), ?_, canon_diet_ne_All hc0, rfl, rfl⟩
    rw [hload]
    simp only [List.mem_append]
    exact Or.inl (Or.inl (Or.inl (Or.inl (mem_dietSection.mpr
      ⟨c0.diet, List.mem_map.mpr ⟨c0, hc0, rfl⟩, rfl⟩))))
  · refine ⟨accRecord "All" c0.gender "All"
      (accOf ((canonRows (computeCols data) data).filter
        (fun c => c.gender = c0.gender))), ?_, rfl, canon_gender_ne_All hc0, rfl⟩
    rw [hload]
    simp only [List.mem_append]
    exact Or.inl (Or.inl (Or.inl (Or.inr (mem_genderSection.mpr
      ⟨c0.gender, List.mem_map.mpr ⟨c0, hc0, rfl⟩, rfl⟩))))
  · refine ⟨accRecord "All" "All" c0.age
      (accOf ((canonRows (computeCols data) data).filter
        (fun c => c.age = c0.age))), ?_, rfl, rfl, canon_age_ne_All hc0⟩
    rw [hload]
    simp only [List.mem_append]
    exact Or.inl (Or.inl (Or.inr (mem_ageSection.mpr
      ⟨c0.age, List.mem_map.mpr ⟨c0, hc0, rfl⟩, rfl⟩)))
  · refine ⟨accRecord c0.diet c0.gender "All"
      (accOf (((canonRows (computeCols data) data).filter
        (fun c => c.diet = c0.diet)).filter (fun c => c.gender = c0.gender))),
      ?_, canon_diet_ne_All hc0, canon_gender_ne_All hc0, rfl⟩
    rw [hload]
    simp only [List.mem_append]
    exact Or.inl (Or.inr (mem_dietGenderSection.mpr
      ⟨c0.diet, c0.gender, List.mem_map.mpr ⟨c0, hc0, rfl⟩,
        List.mem_map.mpr ⟨c0, hcfilter, rfl⟩, rfl⟩))
  · refine ⟨accRecord c0.diet "All" c0.age
      (accOf (((canonRows (computeCols data) data).filter
        (fun c => c.diet = c0.diet)).filter (fun c => c.age = c0.age))),
      ?_, canon_diet_ne_All hc0, rfl, canon_age_ne_All hc0⟩
    rw [hload]
    simp only [List.mem_append]
    exact Or.inr (mem_dietAgeSection.mpr
      ⟨c0.diet, c0.age, List.mem_map.mpr ⟨c0, hc0, rfl⟩,
        List.mem_map.mpr ⟨c0, hcfilter, rfl⟩, rfl⟩)
  · intro r hr hAll
    obtain ⟨h1, h2, h3⟩ := hAll
    rw [hload] at hr
    simp only [List.mem_append] at hr
    rcases hr with ((((hr | hr) | hr) | hr) | hr)
    · rcases mem_dietSection.mp hr with ⟨g, hg, rfl⟩
      rcases List.mem_map.mp hg with ⟨c, hc, rfl⟩
      exact canon_diet_ne_All hc h1
    · rcases mem_genderSection.mp hr with ⟨g, hg, rfl⟩
      rcases List.mem_map.mp hg with ⟨c, hc, rfl⟩
      exact canon_gender_ne_All hc h2
    · rcases mem_ageSection.mp hr with ⟨g, hg, rfl⟩
      rcases List.mem_map.mp hg with ⟨c, hc, rfl⟩
      exact canon_age_ne_All hc h3
    · rcases mem_dietGenderSection.mp hr with ⟨d, g, hd, hg, rfl⟩
      rcases List.mem_map.mp hd with ⟨c, hc, rfl⟩
      exact canon_diet_ne_All hc h1
    · rcases mem_dietAgeSection.mp hr with ⟨d, g, hd, hg, rfl⟩
      rcases List.mem_map.mp hd with ⟨c, hc, rfl⟩
      exact canon_diet_ne_All hc h1

theorem specAMap_keys (key : CanRec → String) (l : List CanRec) :
    (specAMap key l).map (fun p => p.1) = firstDedup (l.map key) := by
  unfold specAMap
  rw [List.map_map]
  exact List.map_id _

theorem map_flatMap_my {α β γ : Type} (l : List α) (f : α → List β) (g : β → γ) :
    (l.flatMap f).map g = l.flatMap (fun a => (f a).map g) := by
  induction l with
  | nil => rfl
  | cons x t ih => simp [List.flatMap_cons, List.map_append, ih]

theorem flatMap_map_my {α β γ : Type} (l : List α) (f : α → β) (g : β → List γ) :
    (l.map f).flatMap g = l.flatMap (fun a => g (f a)) := by
  induction l with
  | nil => rfl
  | cons x t ih => simp [List.flatMap_cons, ih]

theorem flatMap_congr_mem {α β : Type} {l : List α} {f g : α → List β}
    (h : ∀ a ∈ l, f a = g a) : l.flatMap f = l.flatMap g := by
  induction l with
  | nil => rfl
  | cons x t ih =>
    simp only [List.flatMap_cons]
    rw [h x (by simp), ih (fun a ha => h a (by simp [ha]))]

theorem lowerChar_digit {c : Char} (h : c.isDigit = true) : lowerChar c = c := by
  unfold lowerChar
  cases hf : lowerTable.find? (fun p => p.1 == c) with
  | none => rfl
  | some p =>
    exfalso
    have hp := List.mem_of_find?_eq_some hf
    have hpc := List.find?_some hf
    rw [beq_iff_eq] at hpc
    have hdig : ∀ q ∈ lowerTable, q.1.isDigit = false := by decide
    have := hdig p hp
    rw [hpc, h] at this
    cases this

theorem jsToLower_digits {s : String} (h : s.data.all (fun c => c.isDigit) = true) :
    jsToLower s = s := by
  unfold jsToLower
  have h2 : ∀ c ∈ s.data, lowerChar c = c :=
    fun c hc => lowerChar_digit (List.all_eq_true.mp h c hc)
  have hm : s.data.map lowerChar = s.data := by
    calc s.data.map lowerChar = s.data.map id := List.map_congr_left h2
      _ = s.data := List.map_id _
  rw [hm]

theorem isJsWs_digit {c : Char} (h : c.isDigit = true) : isJsWs c = false := by
  have hne : ∀ x ∈ [' ', '\t', '\n', '\r', '\x0b', '\x0c'], c ≠ x := by
    intro x hx heq
    subst heq
    fin_cases hx <;> exact absurd h (by decide)
  unfold isJsWs
  simp only [Bool.or_eq_false_iff, beq_eq_false_iff_ne]
  exact ⟨⟨⟨⟨⟨hne _ (by simp), hne _ (by simp)⟩, hne _ (by simp)⟩,
    hne _ (by simp)⟩, hne _ (by simp)⟩, hne _ (by simp)⟩

theorem dropWhile_eq_self_of_none {l : List Char} (hl : ∀ c ∈ l, isJsWs c = false) :
    l.dropWhile isJsWs = l := by
  cases l with
  | nil => rfl
  | cons c t =>
    rw [List.dropWhile_cons, hl c (by simp)]
    simp

theorem jsTrim_digits {s : String} (h : s.data.all (fun c => c.isDigit) = true) :
    jsTrim s = s := by
  unfold jsTrim
  have h1 : ∀ c ∈ s.data, isJsWs c = false :=
    fun c hc => isJsWs_digit (List.all_eq_true.mp h c hc)
  rw [dropWhile_eq_self_of_none h1]
  have h2 : ∀ c ∈ s.data.reverse, isJsWs c = false :=
    fun c hc => h1 c (List.mem_reverse.mp hc)
  rw [dropWhile_eq_self_of_none h2, List.reverse_reverse]

theorem isArrayIndex_digits {s : String} (h : isArrayIndex s = true) :
    s.data.all (fun c => c.isDigit) = true := by
  unfold isArrayIndex at h
  simp only [Bool.and_eq_true] at h
  exact h.1.1.2

theorem find?_append_of_none {α : Type} {l₁ l₂ : List α} {p : α → Bool}
    (h : l₁.find? p = none) : (l₁ ++ l₂).find? p = l₂.find? p := by
  induction l₁ with
  | nil => rfl
  | cons x t ih =>
    cases hpx : p x with
    | true =>
      rw [List.find?_cons_of_pos _ hpx] at h
      cases h
    | false =>
      rw [List.find?_cons_of_neg _ (by simp [hpx])] at h
      rw [List.cons_append, List.find?_cons_of_neg _ (by simp [hpx])]
      exact ih h

theorem find?_filter_not {α : Type} {ks : List α} {p q : α → Bool}
    (h : ∀ k ∈ ks, q k = true → p k = false) :
    (ks.filter (fun k => !q k)).find? p = ks.find? p := by
  induction ks with
  | nil => rfl
  | cons x t ih =>
    have ih' := ih (fun k hk => h k (by simp [hk]))
    cases hqx : q x with
    | true =>
      rw [List.filter_cons_of_neg (by simp [hqx]),
        List.find?_cons_of_neg _ (by simp [h x (by simp) hqx]), ih']
    | false =>
      rw [List.filter_cons_of_pos (by simp [hqx])]
      cases hpx : p x with
      | true =>
        rw [List.find?_cons_of_pos _ hpx, List.find?_cons_of_pos _ hpx]
      | false =>
        rw [List.find?_cons_of_neg _ (by simp [hpx]),
          List.find?_cons_of_neg _ (by simp [hpx]), ih']

theorem find?_jsOrderKeys (ks : List String) (p : String → Bool)
    (hp : ∀ k ∈ ks, isArrayIndex k = true → p k = false) :
    (jsOrderKeys ks).find? p = ks.find? p := by
  unfold jsOrderKeys
  have h1 : (sortBy (fun a b => decide (digitsToNat a.data ≤ digitsToNat b.data))
      (ks.filter isArrayIndex)).find? p = none := by
    rw [List.find?_eq_none]
    intro x hx
    have hx' : x ∈ ks.filter isArrayIndex := (sortBy_perm _ _).mem_iff.mp hx
    have hxi := (List.mem_filter.mp hx').2
    have hxk := (List.mem_filter.mp hx').1
    simp [hp x hxk hxi]
  rw [find?_append_of_none h1]
  exact find?_filter_not (fun k hk hq => hp k hk hq)

/-- C9 counterexample: with no diet-group alias among the headers but
a column literally named "undefined", the unmapped diet field is not
treated as absent — the "undefined" column's value "vegan" is read,
the row is kept, and records are emitted. -/
theorem reconciler_undefined_counterexample :
    (computeCols rowsUndefinedCol).dietGroup = none ∧
    loadData rowsUndefinedCol ≠ [] ∧
    (loadData rowsUndefinedCol).head?.map (fun r => r.dietGroup) = some "vegan" := by
  with_unfolding_all decide

/-- C9 amended: for each canonical field the reconciler selects the
first header, scanning headers in input order, whose lower-cased
trimmed form appears in the field's alias list (array-index headers
are enumerated first but never match an alias); when no header
matches, the field reads the property named "undefined", so its value
is treated as absent — category fields clean to the empty string and
numeric fields coerce to 0 — provided the row has no column literally
named "undefined". -/
theorem columnReconciler_behavior :
    (∀ (ks : List String) (f : String) (als : List String), (f, als) ∈ columnMap →
      findColumn (jsOrderKeys ks) als =
        ks.find? (fun c => als.contains (jsTrim (jsToLower c)))) ∧
    (∀ r : Row, (∀ p ∈ r, p.1 ≠ "undefined") →
      cleanString (rowGet r none) = "" ∧ safeParseFloat (rowGet r none) = 0) := by
  constructor
  · intro ks f als hmem
    unfold findColumn
    apply find?_jsOrderKeys
    intro k _ hk
    have hdig := isArrayIndex_digits hk
    rw [jsToLower_digits hdig, jsTrim_digits hdig]
    have halias : ∀ pr ∈ columnMap, ∀ a ∈ pr.2,
        a.data.all (fun c => c.isDigit) = false := by decide
    have hnotmem : k ∉ als := by
      intro hc
      have hfa := halias (f, als) hmem k hc
      rw [hdig] at hfa
      cases hfa
    simpa using hnotmem
  · intro r h
    have hget : rowGet r none = Cell.null := by
      unfold rowGet
      have hf : r.find? (fun p => p.1 == "undefined") = none := by
        rw [List.find?_eq_none]
        intro p hp
        simp [h p hp]
      simp only [Option.getD_none]
      rw [hf]
      rfl
    rw [hget]
    exact ⟨rfl, rfl⟩

/-- Witness for C9 amended: the gender field selects "sex" as the
first matching header in input order, and an unmapped field on a row
without an "undefined" column is treated as absent. -/
theorem columnReconciler_behavior_witness :
    findColumn (jsOrderKeys ["age", "sex", "gender"]) ["sex", "gender"] = some "sex" ∧
    cleanString (rowGet [("a", .num 1)] none) = "" ∧
    safeParseFloat (rowGet [("a", .num 1)] none) = 0 :=
  ⟨(columnReconciler_behavior.1 ["age", "sex", "gender"] "gender" ["sex", "gender"]
      (by decide)).trans (by decide),
   (columnReconciler_behavior.2 [("a", .num 1)] (by decide)).1,
   (columnReconciler_behavior.2 [("a", .num 1)] (by decide)).2⟩

/-- C3 counterexample: with (diet, gender) pairs first encountered in
the order (vegan, Female), (fish, Male), (vegan, Male), the
diet-gender records are emitted grouped by diet group — (vegan,
Female), (vegan, Male), (fish, Male) — not in the order the distinct
pairs were first encountered. -/
theorem emissionOrder_counterexample :
    ((dietGenderSection (finalState (computeCols rowsInterleaved) rowsInterleaved)).map
        (fun r => (r.dietGroup, r.gender)) =
      [("vegan", "Female"), ("vegan", "Male"), ("fish", "Male")]) ∧
    (firstDedup ((canonRows (computeCols rowsInterleaved) rowsInterleaved).map
        (fun c => (c.diet, c.gender))) =
      [("vegan", "Female"), ("fish", "Male"), ("vegan", "Male")]) ∧
    ¬ ((dietGenderSection (finalState (computeCols rowsInterleaved) rowsInterleaved)).map
        (fun r => (r.dietGroup, r.gender)) =
      firstDedup ((canonRows (computeCols rowsInterleaved) rowsInterleaved).map
        (fun c => (c.diet, c.gender)))) := by
  with_unfolding_all decide

/-- C3 amended: provided no canonical diet label is an array-index
string (otherwise JavaScript enumerates such keys first, in ascending
numeric order), the single-dimension kinds emit their distinct keys in
first-encounter order, while the two-dimension kinds emit pairs
grouped by diet group — diet groups in first-encounter order and,
within each diet group, the second key in first-encounter order among
that diet group's records. -/
theorem emissionOrder (cols : Cols) (data : List Row)
    (hidx : ∀ c ∈ canonRows cols data, isArrayIndex c.diet = false) :
    (dietSection (finalState cols data)).map (fun r => r.dietGroup) =
      firstDedup ((canonRows cols data).map (fun c => c.diet)) ∧
    (genderSection (finalState cols data)).map (fun r => r.gender) =
      firstDedup ((canonRows cols data).map (fun c => c.gender)) ∧
    (ageSection (finalState cols data)).map (fun r => r.ageGroup) =
      firstDedup ((canonRows cols data).map (fun c => c.age)) ∧
    (dietGenderSection (finalState cols data)).map (fun r => (r.dietGroup, r.gender)) =
      (firstDedup ((canonRows cols data).map (fun c => c.diet))).flatMap
        (fun d => (firstDedup (((canonRows cols data).filter
          (fun c => c.diet = d)).map (fun c => c.gender))).map (fun g => (d, g))) ∧
    (dietAgeSection (finalState cols data)).map (fun r => (r.dietGroup, r.ageGroup)) =
      (firstDedup ((canonRows cols data).map (fun c => c.diet))).flatMap
        (fun d => (firstDedup (((canonRows cols data).filter
          (fun c => c.diet = d)).map (fun c => c.age))).map (fun g => (d, g))) := by
  have hgfalse : ∀ g ∈ ["Female", "Male", "Unknown"], isArrayIndex g = false := by decide
  have hafalse : ∀ g ∈ ["20-29", "30-39", "40-49", "50-59", "60-69", "70-79", "Unknown"],
      isArrayIndex g = false := by decide
  have hDietKeys : ∀ p ∈ specAMap (fun c => c.diet) (canonRows cols data),
      isArrayIndex p.1 = false := by
    intro p hp
    rcases mem_specAMap.mp hp with ⟨g, hg, rfl⟩
    rcases List.mem_map.mp hg with ⟨c, hc, rfl⟩
    exact hidx c hc
  have hGenderKeys : ∀ p ∈ specAMap (fun c => c.gender) (canonRows cols data),
      isArrayIndex p.1 = false := by
    intro p hp
    rcases mem_specAMap.mp hp with ⟨g, hg, rfl⟩
    rcases List.mem_map.mp hg with ⟨c, hc, rfl⟩
    exact hgfalse _ (canon_gender_range hc)
  have hAgeKeys : ∀ p ∈ specAMap (fun c => c.age) (canonRows cols data),
      isArrayIndex p.1 = false := by
    intro p hp
    rcases mem_specAMap.mp hp with ⟨g, hg, rfl⟩
    rcases List.mem_map.mp hg with ⟨c, hc, rfl⟩
    exact hafalse _ (canon_age_range hc)
  have hNK : ∀ (k2 : CanRec → String), ∀ p ∈ specNMap (fun c => c.diet) k2 (canonRows cols data),
      isArrayIndex p.1 = false := by
    intro k2 p hp
    rcases mem_specNMap.mp hp with ⟨d, hd, rfl⟩
    rcases List.mem_map.mp hd with ⟨c, hc, rfl⟩
    exact hidx c hc
  have hInnerG : ∀ d, ∀ p ∈ specAMap (fun c => c.gender)
      ((canonRows cols data).filter (fun c => c.diet = d)), isArrayIndex p.1 = false := by
    intro d p hp
    rcases mem_specAMap.mp hp with ⟨g, hg, rfl⟩
    rcases List.mem_map.mp hg with ⟨c, hc, rfl⟩
    exact hgfalse _ (canon_gender_range (List.mem_of_mem_filter hc))
  have hInnerA : ∀ d, ∀ p ∈ specAMap (fun c => c.age)
      ((canonRows cols data).filter (fun c => c.diet = d)), isArrayIndex p.1 = false := by
    intro d p hp
    rcases mem_specAMap.mp hp with ⟨g, hg, rfl⟩
    rcases List.mem_map.mp hg with ⟨c, hc, rfl⟩
    exact hafalse _ (canon_age_range (List.mem_of_mem_filter hc))
  rw [finalState_spec]
  refine ⟨?_, ?_, ?_, ?_, ?_⟩
  · unfold dietSection specSt
    rw [jsEntries_eq_self _ hDietKeys, List.map_map]
    exact specAMap_keys (fun c => c.diet) (canonRows cols data)
  · unfold genderSection specSt
    rw [jsEntries_eq_self _ hGenderKeys, List.map_map]
    exact specAMap_keys (fun c => c.gender) (canonRows cols data)
  · unfold ageSection specSt
    rw [jsEntries_eq_self _ hAgeKeys, List.map_map]
    exact specAMap_keys (fun c => c.age) (canonRows cols data)
  · unfold dietGenderSection specSt
    rw [jsEntries_eq_self _ (hNK (fun c => c.gender))]
    unfold specNMap
    rw [map_flatMap_my, flatMap_map_my]
    refine flatMap_congr_mem ?_
    intro d hd
    rw [jsEntries_eq_self _ (hInnerG d), List.map_map]
    unfold specAMap
    rw [List.map_map]
    rfl
  · unfold dietAgeSection specSt
    rw [jsEntries_eq_self _ (hNK (fun c => c.age))]
    unfold specNMap
    rw [map_flatMap_my, flatMap_map_my]
    refine flatMap_congr_mem ?_
    intro d hd
    rw [jsEntries_eq_self _ (hInnerA d), List.map_map]
    unfold specAMap
    rw [List.map_map]
    rfl

/-- Witness for C3 amended at a concrete one-row input. -/
theorem emissionOrder_witness :
    (dietSection (finalState (computeCols rowsOne) rowsOne)).map (fun r => r.dietGroup) =
      firstDedup ((canonRows (computeCols rowsOne) rowsOne).map (fun c => c.diet)) ∧
    (genderSection (finalState (computeCols rowsOne) rowsOne)).map (fun r => r.gender) =
      firstDedup ((canonRows (computeCols rowsOne) rowsOne).map (fun c => c.gender)) ∧
    (ageSection (finalState (computeCols rowsOne) rowsOne)).map (fun r => r.ageGroup) =
      firstDedup ((canonRows (computeCols rowsOne) rowsOne).map (fun c => c.age)) ∧
    (dietGenderSection (finalState (computeCols rowsOne) rowsOne)).map
        (fun r => (r.dietGroup, r.gender)) =
      (firstDedup ((canonRows (computeCols rowsOne) rowsOne).map (fun c => c.diet))).flatMap
        (fun d => (firstDedup (((canonRows (computeCols rowsOne) rowsOne).filter
          (fun c => c.diet = d)).map (fun c => c.gender))).map (fun g => (d, g))) ∧
    (dietAgeSection (finalState (computeCols rowsOne) rowsOne)).map
        (fun r => (r.dietGroup, r.ageGroup)) =
      (firstDedup ((canonRows (computeCols rowsOne) rowsOne).map (fun c => c.diet))).flatMap
        (fun d => (firstDedup (((canonRows (computeCols rowsOne) rowsOne).filter
          (fun c => c.diet = d)).map (fun c => c.age))).map (fun g => (d, g))) :=
  emissionOrder (computeCols rowsOne) rowsOne (by with_unfolding_all decide)

/-- Witness for C2 amended at a concrete one-row input. -/
theorem fiveGroupKinds_witness :
    (∃ r ∈ loadData rowsOne, r.dietGroup ≠ "All" ∧ r.gender = "All" ∧ r.ageGroup = "All") ∧
    (∃ r ∈ loadData rowsOne, r.dietGroup = "All" ∧ r.gender ≠ "All" ∧ r.ageGroup = "All") ∧
    (∃ r ∈ loadData rowsOne, r.dietGroup = "All" ∧ r.gender = "All" ∧ r.ageGroup ≠ "All") ∧
    (∃ r ∈ loadData rowsOne, r.dietGroup ≠ "All" ∧ r.gender ≠ "All" ∧ r.ageGroup = "All") ∧
    (∃ r ∈ loadData rowsOne, r.dietGroup ≠ "All" ∧ r.gender = "All" ∧ r.ageGroup ≠ "All") ∧
    (∀ r ∈ loadData rowsOne,
      ¬(r.dietGroup = "All" ∧ r.gender = "All" ∧ r.ageGroup = "All")) :=
  fiveGroupKinds rowsOne (by decide)

theorem find?_append_of_some {α : Type} {l₁ l₂ : List α} {p : α → Bool} {a : α}
    (h : l₁.find? p = some a) : (l₁ ++ l₂).find? p = some a := by
  induction l₁ with
  | nil => cases h
  | cons x t ih =>
    cases hpx : p x with
    | true =>
      rw [List.find?_cons_of_pos _ hpx] at h
      rw [List.cons_append, List.find?_cons_of_pos _ hpx]
      exact h
    | false =>
      rw [List.find?_cons_of_neg _ (by simp [hpx])] at h
      rw [List.cons_append, List.find?_cons_of_neg _ (by simp [hpx])]
      exact ih h

theorem find?_map_step_eq {β : Type} (k : String) (v : β) (m : List (String × β)) :
    ∀ k', k' ≠ k →
      (m.map (fun p => if p.1 == k then (p.1, v) else p)).find? (fun p => p.1 == k') =
        m.find? (fun p => p.1 == k') := by
  intro k' hk
  induction m with
  | nil => rfl
  | cons p t ih =>
    simp only [List.map_cons]
    by_cases hp : p.1 = k
    · rw [if_pos (by simp [hp])]
      rw [List.find?_cons_of_neg _ (by simp [hp]; exact fun hh => hk hh.symm),
        List.find?_cons_of_neg _ (by simp [hp]; exact fun hh => hk hh.symm)]
      exact ih
    · rw [if_neg (by simp [hp])]
      cases hpk : (p.1 == k') with
      | true =>
        rw [List.find?_cons_of_pos _ (by exact hpk),
          List.find?_cons_of_pos _ (by exact hpk)]
      | false =>
        rw [List.find?_cons_of_neg _ (by simp [hpk]),
          List.find?_cons_of_neg _ (by simp [hpk])]
        exact ih

theorem find?_map_step_self {β : Type} (k : String) (v : β) (m : List (String × β))
    (h : ∃ p ∈ m, p.1 = k) :
    ((m.map (fun p => if p.1 == k then (p.1, v) else p)).find?
      (fun p => p.1 == k)).map (fun p => p.2) = some v := by
  induction m with
  | nil => simp at h
  | cons p t ih =>
    simp only [List.map_cons]
    by_cases hp : p.1 = k
    · rw [if_pos (by simp [hp])]
      rw [List.find?_cons_of_pos _ (by simp [hp])]
      rfl
    · rw [if_neg (by simp [hp])]
      rw [List.find?_cons_of_neg _ (by simp [hp])]
      refine ih ?_
      rcases h with ⟨q, hq, hqk⟩
      rcases List.mem_cons.mp hq with rfl | hq'
      · exact absurd hqk hp
      · exact ⟨q, hq', hqk⟩

theorem getK_setK_self {β : Type} (m : List (String × β)) (k : String) (v : β) :
    getK (setK m k v) k = some v := by
  unfold setK getK
  by_cases ha : m.any (fun p => p.1 == k)
  · rw [if_pos ha]
    refine find?_map_step_self k v m ?_
    rcases List.any_eq_true.mp ha with ⟨p, hp, hpk⟩
    exact ⟨p, hp, by simpa using hpk⟩
  · rw [if_neg ha]
    have hnone : m.find? (fun p => p.1 == k) = none := by
      rw [List.find?_eq_none]
      intro p hp hpk
      exact ha (List.any_eq_true.mpr ⟨p, hp, hpk⟩)
    rw [find?_append_of_none hnone]
    rw [List.find?_cons_of_pos _ (by simp)]
    rfl

theorem getK_setK_ne {β : Type} (m : List (String × β)) (k k' : String) (v : β)
    (h : k' ≠ k) : getK (setK m k v) k' = getK m k' := by
  unfold setK getK
  by_cases ha : m.any (fun p => p.1 == k)
  · rw [if_pos ha, find?_map_step_eq k v m k' h]
  · rw [if_neg ha]
    cases hm : m.find? (fun p => p.1 == k') with
    | none =>
      rw [find?_append_of_none hm]
      rw [List.find?_cons_of_neg _ (by simp; exact fun hh => h hh.symm)]
      rfl
    | some a =>
      rw [find?_append_of_some hm]

theorem getK_some_mem {β : Type} {m : List (String × β)} {k : String} {b : β}
    (h : getK m k = some b) : (k, b) ∈ m := by
  unfold getK at h
  cases hf : m.find? (fun p => p.1 == k) with
  | none => rw [hf] at h; cases h
  | some p =>
    rw [hf] at h
    simp only [Option.map_some', Option.some.injEq] at h
    have hk := List.find?_some hf
    rw [beq_iff_eq] at hk
    have hp := List.mem_of_find?_eq_some hf
    have : p = (k, b) := by
      cases p
      simp_all
    exact this ▸ hp

theorem getK_isSome_iff {β : Type} {m : List (String × β)} {k : String} :
    (getK m k).isSome = true ↔ k ∈ m.map (fun p => p.1) := by
  unfold getK
  induction m with
  | nil => simp
  | cons p t ih =>
    by_cases hp : p.1 = k
    · rw [List.find?_cons_of_pos _ (by simp [hp])]
      simp [hp]
    · rw [List.find?_cons_of_neg _ (by simp [hp])]
      simp only [List.map_cons, List.mem_cons]
      rw [← ih]
      constructor
      · exact Or.inr
      · rintro (hk | hk)
        · exact absurd hk.symm hp
        · exact hk

theorem keys_setK_mem {β : Type} {m : List (String × β)} {k : String}
    (h : k ∈ m.map (fun p => p.1)) (v : β) :
    (setK m k v).map (fun p => p.1) = m.map (fun p => p.1) := by
  unfold setK
  have ha : m.any (fun p => p.1 == k) = true := by
    rw [List.any_eq_true]
    rcases List.mem_map.mp h with ⟨p, hp, hpk⟩
    exact ⟨p, hp, by simp [hpk]⟩
  rw [if_pos ha, List.map_map]
  refine List.map_congr_left ?_
  intro p hp
  simp only [Function.comp]
  by_cases hpk : p.1 = k <;> simp [hpk]

theorem nodup_map_injOn {α β : Type} {f : α → β} {l : List α}
    (h : (l.map f).Nodup) {a b : α} (ha : a ∈ l) (hb : b ∈ l) (hf : f a = f b) :
    a = b := by
  induction l with
  | nil => cases ha
  | cons x t ih =>
    rw [List.map_cons, List.nodup_cons] at h
    rcases List.mem_cons.mp ha with rfl | ha' <;>
      rcases List.mem_cons.mp hb with rfl | hb'
    · rfl
    · exact absurd (by rw [hf]; exact List.mem_map.mpr ⟨b, hb', rfl⟩) h.1
    · exact absurd (by rw [← hf]; exact List.mem_map.mpr ⟨a, ha', rfl⟩) h.1
    · exact ih h.2 ha' hb'

theorem getK_keyed_map {β : Type} (ks : List String) (f : String → β) (k : String) :
    getK (ks.map (fun g => (g, f g))) k = if k ∈ ks then some (f k) else none := by
  unfold getK
  rw [find?_keyed_map]
  by_cases h : k ∈ ks <;> simp [h]

theorem getK_fold_set_ne {β : Type} (f : String × ℚ → β) (ind : String) :
    ∀ (L : List (String × ℚ)) (m : List (String × β)),
      ind ∉ L.map (fun p => p.1) →
      getK (L.foldl (fun acc iw => setK acc iw.1 (f iw)) m) ind = getK m ind := by
  intro L
  induction L with
  | nil => intro m _; rfl
  | cons iw t ih =>
    intro m hind
    simp only [List.map_cons, List.mem_cons, not_or] at hind
    simp only [List.foldl_cons]
    rw [ih _ hind.2, getK_setK_ne _ _ _ _ hind.1]

theorem getK_fold_set {β : Type} (f : String × ℚ → β) :
    ∀ (L : List (String × ℚ)) (m : List (String × β)) (ind : String) (w : ℚ),
      (ind, w) ∈ L → (L.map (fun p => p.1)).Nodup →
      getK (L.foldl (fun acc iw => setK acc iw.1 (f iw)) m) ind = some (f (ind, w)) := by
  intro L
  induction L with
  | nil => intro m ind w h _; cases h
  | cons iw t ih =>
    intro m ind w hmem hnd
    rw [List.map_cons, List.nodup_cons] at hnd
    simp only [List.foldl_cons]
    rcases List.mem_cons.mp hmem with heq | hmem'
    · subst heq
      rw [getK_fold_set_ne f ind t _ (by simpa using hnd.1)]
      exact getK_setK_self m ind (f (ind, w))
    · exact ih _ ind w hmem' hnd.2

theorem fillItem_skip1 (mx : String → ℚ) (cm : CMap) (r : DietData)
    (hg1 : getK cm r.dietGroup = none) : fillItem mx cm r = cm := by
  simp [fillItem, hg1]

theorem fillItem_skip2 (mx : String → ℚ) (cm : CMap) (r : DietData) (inner : A2Map)
    (hg1 : getK cm r.dietGroup = some inner)
    (hg2 : getK inner r.ageGroup = none) : fillItem mx cm r = cm := by
  simp [fillItem, hg1, hg2]

theorem fillItem_set (mx : String → ℚ) (cm : CMap) (r : DietData)
    (inner : A2Map) (im : IMap)
    (hg1 : getK cm r.dietGroup = some inner)
    (hg2 : getK inner r.ageGroup = some im) :
    fillItem mx cm r = setK cm r.dietGroup (setK inner r.ageGroup
      (indicators.foldl
        (fun acc iw => setK acc iw.1 (jsMulW (jsDiv (getInd r iw.1) (mx iw.1)) iw.2))
        im)) := by
  simp [fillItem, hg1, hg2]

theorem fillItem_inv (mx : String → ℚ) (uds uas : List String) (cm : CMap)
    (r : DietData)
    (h1 : cm.map (fun p => p.1) = uds)
    (h2 : ∀ p ∈ cm, p.2.map (fun q => q.1) = uas) :
    (fillItem mx cm r).map (fun p => p.1) = uds ∧
      ∀ p ∈ fillItem mx cm r, p.2.map (fun q => q.1) = uas := by
  cases hg1 : getK cm r.dietGroup with
  | none => rw [fillItem_skip1 mx cm r hg1]; exact ⟨h1, h2⟩
  | some inner =>
    cases hg2 : getK inner r.ageGroup with
    | none => rw [fillItem_skip2 mx cm r inner hg1 hg2]; exact ⟨h1, h2⟩
    | some im =>
      rw [fillItem_set mx cm r inner im hg1 hg2]
      have hmem1 : (r.dietGroup, inner) ∈ cm := getK_some_mem hg1
      have hkeys_inner : inner.map (fun q => q.1) = uas := h2 _ hmem1
      have hdmem : r.dietGroup ∈ cm.map (fun p => p.1) :=
        List.mem_map.mpr ⟨_, hmem1, rfl⟩
      have hamem : r.ageGroup ∈ inner.map (fun q => q.1) :=
        getK_isSome_iff.mp (by rw [hg2]; rfl)
      refine ⟨by rw [keys_setK_mem hdmem, h1], ?_⟩
      intro p hp
      unfold setK at hp
      have ha : cm.any (fun q => q.1 == r.dietGroup) = true := by
        rw [List.any_eq_true]
        exact ⟨_, hmem1, by simp⟩
      rw [if_pos ha] at hp
      rcases List.mem_map.mp hp with ⟨q, hq, rfl⟩
      by_cases hqk : q.1 = r.dietGroup
      · rw [if_pos (by simp [hqk])]
        show (setK inner r.ageGroup _).map (fun q => q.1) = uas
        rw [keys_setK_mem hamem]
        exact hkeys_inner
      · rw [if_neg (by simp [hqk])]
        exact h2 q hq

theorem fillItem_lookup_other (mx : String → ℚ) (cm : CMap) (r : DietData)
    (d a ind : String) (hne : ¬(r.dietGroup = d ∧ r.ageGroup = a)) :
    lookupCM (fillItem mx cm r) d a ind = lookupCM cm d a ind := by
  cases hg1 : getK cm r.dietGroup with
  | none => rw [fillItem_skip1 mx cm r hg1]
  | some inner =>
    cases hg2 : getK inner r.ageGroup with
    | none => rw [fillItem_skip2 mx cm r inner hg1 hg2]
    | some im =>
      rw [fillItem_set mx cm r inner im hg1 hg2]
      unfold lookupCM
      by_cases hd : d = r.dietGroup
      · subst hd
        rw [getK_setK_self, hg1]
        have hna : a ≠ r.ageGroup := fun hh => hne ⟨rfl, hh.symm⟩
        show (getK (setK inner r.ageGroup _) a).bind _ = (getK inner a).bind _
        rw [getK_setK_ne _ _ _ _ hna]
      · rw [getK_setK_ne _ _ _ _ hd]

theorem fillItem_lookup_self (mx : String → ℚ) (cm : CMap) (r : DietData)
    (ind : String) (w : ℚ) (hiw : (ind, w) ∈ indicators)
    (inner : A2Map) (im : IMap)
    (hg1 : getK cm r.dietGroup = some inner) (hg2 : getK inner r.ageGroup = some im) :
    lookupCM (fillItem mx cm r) r.dietGroup r.ageGroup ind =
      some (jsMulW (jsDiv (getInd r ind) (mx ind)) w) := by
  rw [fillItem_set mx cm r inner im hg1 hg2]
  unfold lookupCM
  rw [getK_setK_self]
  show (getK (setK inner r.ageGroup _) r.ageGroup).bind _ = _
  rw [getK_setK_self]
  show getK (indicators.foldl _ im) ind = _
  exact getK_fold_set _ indicators im ind w hiw (by decide)

theorem combined_lookup_aux (mx : String → ℚ) (uds uas : List String)
    (d a ind : String) (w : ℚ) (hiw : (ind, w) ∈ indicators) :
    ∀ (fl : List DietData) (cm : CMap) (seen : List DietData),
      cm.map (fun p => p.1) = uds →
      (∀ p ∈ cm, p.2.map (fun q => q.1) = uas) →
      (∀ r ∈ fl, r.dietGroup ∈ uds ∧ r.ageGroup ∈ uas) →
      ((lookupCM cm d a ind = none ∧
          ∀ r ∈ seen, ¬(r.dietGroup = d ∧ r.ageGroup = a)) ∨
        (∃ r ∈ seen, r.dietGroup = d ∧ r.ageGroup = a ∧
          lookupCM cm d a ind = some (jsMulW (jsDiv (getInd r ind) (mx ind)) w))) →
      ((lookupCM (fl.foldl (fillItem mx) cm) d a ind = none ∧
          ∀ r ∈ seen ++ fl, ¬(r.dietGroup = d ∧ r.ageGroup = a)) ∨
        (∃ r ∈ seen ++ fl, r.dietGroup = d ∧ r.ageGroup = a ∧
          lookupCM (fl.foldl (fillItem mx) cm) d a ind =
            some (jsMulW (jsDiv (getInd r ind) (mx ind)) w))) := by
  intro fl
  induction fl with
  | nil =>
    intro cm seen _ _ _ hP
    simpa using hP
  | cons r t ih =>
    intro cm seen h1 h2 hmem hP
    simp only [List.foldl_cons]
    have hinv := fillItem_inv mx uds uas cm r h1 h2
    have happ : seen ++ r :: t = (seen ++ [r]) ++ t := by simp
    rw [happ]
    refine ih (fillItem mx cm r) (seen ++ [r]) hinv.1 hinv.2
      (fun r' hr' => hmem r' (by simp [hr'])) ?_
    by_cases hp : r.dietGroup = d ∧ r.ageGroup = a
    · right
      refine ⟨r, by simp, hp.1, hp.2, ?_⟩
      have hdm : r.dietGroup ∈ cm.map (fun p => p.1) := by
        rw [h1]
        exact (hmem r (by simp)).1
      have hg1' : (getK cm r.dietGroup).isSome = true := getK_isSome_iff.mpr hdm
      cases hg1 : getK cm r.dietGroup with
      | none => rw [hg1] at hg1'; cases hg1'
      | some inner =>
        have hkeys_inner : inner.map (fun q => q.1) = uas := h2 _ (getK_some_mem hg1)
        have ham : r.ageGroup ∈ inner.map (fun q => q.1) := by
          rw [hkeys_inner]
          exact (hmem r (by simp)).2
        have hg2' : (getK inner r.ageGroup).isSome = true := getK_isSome_iff.mpr ham
        cases hg2 : getK inner r.ageGroup with
        | none => rw [hg2] at hg2'; cases hg2'
        | some im =>
          rw [← hp.1, ← hp.2]
          exact fillItem_lookup_self mx cm r ind w hiw inner im hg1 hg2
    · rw [fillItem_lookup_other mx cm r d a ind hp]
      rcases hP with ⟨hn, hno⟩ | ⟨r', hr', h1', h2', h3'⟩
      · left
        refine ⟨hn, ?_⟩
        intro r'' hr''
        rcases List.mem_append.mp hr'' with h | h
        · exact hno r'' h
        · rw [List.mem_singleton] at h
          subst h
          exact hp
      · right
        exact ⟨r', by simp [hr'], h1', h2', h3'⟩

theorem combined_lookup (fl : List DietData) (uds uas : List String) (mx : String → ℚ)
    (d a ind : String) (w : ℚ) (hiw : (ind, w) ∈ indicators)
    (hmem : ∀ r ∈ fl, r.dietGroup ∈ uds ∧ r.ageGroup ∈ uas) :
    (lookupCM (combinedData fl uds uas mx) d a ind = none ∧
        ∀ r ∈ fl, ¬(r.dietGroup = d ∧ r.ageGroup = a)) ∨
      (∃ r ∈ fl, r.dietGroup = d ∧ r.ageGroup = a ∧
        lookupCM (combinedData fl uds uas mx) d a ind =
          some (jsMulW (jsDiv (getInd r ind) (mx ind)) w)) := by
  have hinit1 : (initCMap uds uas).map (fun p => p.1) = uds := by
    unfold initCMap
    rw [List.map_map]
    exact List.map_id _
  have hinit2 : ∀ p ∈ initCMap uds uas, p.2.map (fun q => q.1) = uas := by
    intro p hp
    rcases List.mem_map.mp hp with ⟨d', _, rfl⟩
    show (uas.map (fun a => (a, ([] : IMap)))).map (fun q => q.1) = uas
    rw [List.map_map]
    exact List.map_id _
  have hinit3 : lookupCM (initCMap uds uas) d a ind = none := by
    unfold lookupCM initCMap
    rw [getK_keyed_map]
    by_cases hd : d ∈ uds
    · rw [if_pos hd]
      show (getK (uas.map (fun a => (a, ([] : IMap)))) a).bind _ = none
      rw [getK_keyed_map]
      by_cases ha : a ∈ uas
      · rw [if_pos ha]
        rfl
      · rw [if_neg ha]
        rfl
    · rw [if_neg hd]
      rfl
  have h := combined_lookup_aux mx uds uas d a ind w hiw fl (initCMap uds uas) []
    hinit1 hinit2 hmem (Or.inl ⟨hinit3, by simp⟩)
  simpa using h

theorem foldl_max_le_start (t : List ℚ) : ∀ y : ℚ, y ≤ t.foldl max y := by
  induction t with
  | nil => intro y; exact le_refl y
  | cons z s ih => intro y; exact le_trans (le_max_left y z) (ih (max y z))

theorem le_foldl_max (t : List ℚ) : ∀ (y x : ℚ), x ∈ t → x ≤ t.foldl max y := by
  induction t with
  | nil => intro y x hx; cases hx
  | cons z s ih =>
    intro y x hx
    rcases List.mem_cons.mp hx with rfl | hx'
    · exact le_trans (le_max_right y x) (foldl_max_le_start s _)
    · exact ih _ x hx'

theorem le_maxOfList {l : List ℚ} {x : ℚ} (h : x ∈ l) : x ≤ maxOfList l := by
  cases l with
  | nil => cases h
  | cons y t =>
    unfold maxOfList
    rcases List.mem_cons.mp h with rfl | h'
    · exact foldl_max_le_start t x
    · exact le_foldl_max t y x h'

theorem foldl_max_zero : ∀ (t : List ℚ) (y : ℚ),
    (∀ x ∈ t, x = (0 : ℚ)) → y = 0 → t.foldl max y = 0 := by
  intro t
  induction t with
  | nil => intro y _ hy; exact hy
  | cons z s ih =>
    intro y hz hy
    simp only [List.foldl_cons]
    refine ih _ (fun x hx => hz x (by simp [hx])) ?_
    rw [hy, hz z (by simp)]
    exact max_self 0

theorem maxOfList_zero {l : List ℚ} (h : ∀ x ∈ l, x = 0) (hl : l ≠ []) :
    maxOfList l = 0 := by
  cases l with
  | nil => exact absurd rfl hl
  | cons y t =>
    unfold maxOfList
    exact foldl_max_zero t y (fun x hx => h x (by simp [hx])) (h y (by simp))

theorem maxI_zero {fl : List DietData} {ind : String}
    (h : ∀ r ∈ fl, getInd r ind = 0) (hfl : fl ≠ []) : maxI fl ind = 0 := by
  unfold maxI
  apply maxOfList_zero
  · intro x hx
    rcases List.mem_map.mp hx with ⟨r, hr, rfl⟩
    exact h r hr
  · simp [hfl]

theorem le_maxI {fl : List DietData} {ind : String} {r : DietData} (hr : r ∈ fl) :
    getInd r ind ≤ maxI fl ind :=
  le_maxOfList (List.mem_map.mpr ⟨r, hr, rfl⟩)

theorem mem_uniqueDietGroups {fl : List DietData} {r : DietData} (hr : r ∈ fl) :
    r.dietGroup ∈ uniqueDietGroups fl :=
  (sortBy_perm _ _).mem_iff.mpr (mem_firstDedup.mpr (List.mem_map.mpr ⟨r, hr, rfl⟩))

theorem mem_uniqueAgeGroups {fl : List DietData} {r : DietData} (hr : r ∈ fl) :
    r.ageGroup ∈ uniqueAgeGroups fl :=
  (sortBy_perm _ _).mem_iff.mpr (mem_firstDedup.mpr (List.mem_map.mpr ⟨r, hr, rfl⟩))

theorem jsOrZero_fin (q : ℚ) : jsOrZero (some (JsNum.fin q)) = JsNum.fin q := by
  by_cases h : q = 0 <;> simp [jsOrZero, h]

theorem mem_seriesFor {fl : List DietData} {cm : CMap} {uds uas : List String}
    {iw : String × ℚ} {p : Pt} (hp : p ∈ seriesFor fl cm uds uas iw) :
    ∃ d ∈ uds, ∃ a ∈ uas, p = mkPoint fl cm uds uas d a iw := by
  unfold seriesFor at hp
  rcases List.mem_flatMap.mp hp with ⟨d, hd, hp'⟩
  rcases List.mem_map.mp hp' with ⟨a, ha, rfl⟩
  exact ⟨d, hd, a, ha, rfl⟩

theorem processedData3D_eq {records : List DietData} {ind : String} {ps : List Pt}
    {w : ℚ} (hiw : (ind, w) ∈ indicators)
    (hmem : (ind, ps) ∈ processedData3D records) :
    filteredData records ≠ [] ∧
      ps = seriesFor (filteredData records)
        (combinedData (filteredData records) (uniqueDietGroups (filteredData records))
          (uniqueAgeGroups (filteredData records)) (maxI (filteredData records)))
        (uniqueDietGroups (filteredData records))
        (uniqueAgeGroups (filteredData records)) (ind, w) := by
  simp only [processedData3D] at hmem
  by_cases hfl : (filteredData records).isEmpty
  · rw [if_pos hfl] at hmem
    cases hmem
  · rw [if_neg hfl] at hmem
    rcases List.mem_map.mp hmem with ⟨iw', hiw', heq⟩
    have h1 : iw'.1 = ind := congrArg Prod.fst heq
    have hinj : ∀ x ∈ indicators, ∀ y ∈ indicators, x.1 = y.1 → x = y := by
      with_unfolding_all decide
    have h2 : iw' = (ind, w) := hinj iw' hiw' (ind, w) hiw h1
    subst h2
    refine ⟨?_, (congrArg Prod.snd heq).symm⟩
    intro hne
    rw [hne] at hfl
    simp at hfl

/-- C4: for every indicator of the 3D chart, if every raw mean of
that indicator in the filtered diet-by-age subset is zero, then the
normalized value emitted for every data point of that indicator's
series is exactly 0 — never NaN and never an error (the NaN produced
by 0/0 in the combined map is replaced by 0 at emission by the
falsy-or-zero fallback). -/
theorem normalized_zero_when_max_zero (records : List DietData) (iw : String × ℚ)
    (ps : List Pt) (hiw : iw ∈ indicators)
    (hzero : ∀ r ∈ filteredData records, getInd r iw.1 = 0)
    (hmem : (iw.1, ps) ∈ processedData3D records) :
    ∀ p ∈ ps, p.value = JsNum.fin 0 := by
  obtain ⟨hfl, hps⟩ := @processedData3D_eq records iw.1 ps iw.2 hiw hmem
  subst hps
  intro p hp
  rcases mem_seriesFor hp with ⟨d, hd, a, ha, rfl⟩
  have hmm : ∀ r ∈ filteredData records,
      r.dietGroup ∈ uniqueDietGroups (filteredData records) ∧
      r.ageGroup ∈ uniqueAgeGroups (filteredData records) :=
    fun r hr => ⟨mem_uniqueDietGroups hr, mem_uniqueAgeGroups hr⟩
  have hlk := combined_lookup (filteredData records)
    (uniqueDietGroups (filteredData records)) (uniqueAgeGroups (filteredData records))
    (maxI (filteredData records)) d a iw.1 iw.2 hiw hmm
  rcases hlk with ⟨hnone, _⟩ | ⟨r', hr', _, _, hsome⟩
  · show jsOrZero (lookupCM _ d a iw.1) = JsNum.fin 0
    rw [hnone]
    rfl
  · show jsOrZero (lookupCM _ d a iw.1) = JsNum.fin 0
    rw [hsome, hzero r' hr', maxI_zero hzero hfl]
    simp [jsDiv, jsMulW, jsOrZero]

/-- Witness for C4 at a one-record subset whose ghgs means are all 0. -/
theorem normalized_zero_when_max_zero_witness :
    ("ghgs", [⟨0, 0, JsNum.fin 0, "ghgs", 0⟩]) ∈ processedData3D recsAllZero ∧
    ∀ p ∈ ([⟨0, 0, JsNum.fin 0, "ghgs", 0⟩] : List Pt), p.value = JsNum.fin 0 :=
  ⟨by with_unfolding_all decide,
   normalized_zero_when_max_zero recsAllZero ("ghgs", 1)
     [⟨0, 0, JsNum.fin 0, "ghgs", 0⟩] (by with_unfolding_all decide)
     (by with_unfolding_all decide) (by with_unfolding_all decide)⟩

/-- C5: for a non-empty filtered subset with distinct diet-age pairs
and an indicator with positive maximum, under non-negative raw means
every emitted data point carries normalized value
(raw / max) * weight, lying in the interval from 0 to the weight, and
attaining the weight exactly at points whose raw mean equals the
maximum. -/
theorem normalized_values_bounded (records : List DietData) (iw : String × ℚ)
    (ps : List Pt) (hiw : iw ∈ indicators)
    (hnd : ((filteredData records).map (fun r => (r.dietGroup, r.ageGroup))).Nodup)
    (hpos : ∀ r ∈ filteredData records, 0 ≤ getInd r iw.1)
    (hmax : 0 < maxI (filteredData records) iw.1)
    (hmem : (iw.1, ps) ∈ processedData3D records) :
    ∀ p ∈ ps,
      p.value = JsNum.fin (p.raw / maxI (filteredData records) iw.1 * iw.2) ∧
      0 ≤ p.raw / maxI (filteredData records) iw.1 * iw.2 ∧
      p.raw / maxI (filteredData records) iw.1 * iw.2 ≤ iw.2 ∧
      (p.value = JsNum.fin iw.2 ↔ p.raw = maxI (filteredData records) iw.1) := by
  obtain ⟨hfl, hps⟩ := @processedData3D_eq records iw.1 ps iw.2 hiw hmem
  subst hps
  have hw : 0 < iw.2 :=
    (show ∀ x ∈ indicators, 0 < x.2 by with_unfolding_all decide) iw hiw
  set FL := filteredData records with hFL
  set UD := uniqueDietGroups FL with hUD
  set UA := uniqueAgeGroups FL with hUA
  set MX := maxI FL with hMX
  set CM := combinedData FL UD UA MX with hCM
  intro p hp
  rcases mem_seriesFor hp with ⟨d, hd, a, ha, rfl⟩
  have hmm : ∀ r ∈ FL, r.dietGroup ∈ UD ∧ r.ageGroup ∈ UA :=
    fun r hr => ⟨mem_uniqueDietGroups hr, mem_uniqueAgeGroups hr⟩
  rcases combined_lookup FL UD UA MX d a iw.1 iw.2 hiw hmm with
    ⟨hnone, hnomatch⟩ | ⟨r', hr', hd', ha', hsome⟩
  · have hfind : FL.find?
        (fun r => r.dietGroup == d && r.ageGroup == a) = none := by
      rw [List.find?_eq_none]
      intro r hr hcon
      simp only [Bool.and_eq_true, beq_iff_eq] at hcon
      exact hnomatch r hr ⟨hcon.1, hcon.2⟩
    have hraw : (mkPoint FL CM UD UA d a (iw.1, iw.2)).raw = 0 := by
      show (((FL.find? _).map _).getD 0) = 0
      rw [hfind]
      rfl
    have hval : (mkPoint FL CM UD UA d a (iw.1, iw.2)).value = JsNum.fin 0 := by
      show jsOrZero (lookupCM CM d a iw.1) = _
      rw [hnone]
      rfl
    refine ⟨?_, ?_, ?_, ?_⟩
    · rw [hval, hraw, zero_div, zero_mul]
    · rw [hraw, zero_div, zero_mul]
    · rw [hraw, zero_div, zero_mul]
      exact le_of_lt hw
    · rw [hval, hraw]
      refine iff_of_false ?_ (ne_of_lt hmax)
      intro hcon
      injection hcon with h'
      exact absurd h' (ne_of_lt hw)
  · have hfind : ∃ r'', FL.find?
        (fun r => r.dietGroup == d && r.ageGroup == a) = some r'' := by
      cases hf : FL.find?
          (fun r => r.dietGroup == d && r.ageGroup == a) with
      | none =>
        exfalso
        exact List.find?_eq_none.mp hf r' hr' (by simp [hd', ha'])
      | some x => exact ⟨x, rfl⟩
    obtain ⟨r'', hfind⟩ := hfind
    have hr''mem := List.mem_of_find?_eq_some hfind
    have hr''pred := List.find?_some hfind
    simp only [Bool.and_eq_true, beq_iff_eq] at hr''pred
    have hre : r'' = r' := by
      refine nodup_map_injOn hnd hr''mem hr' ?_
      rw [hr''pred.1, hr''pred.2, hd', ha']
    subst hre
    have hraw : (mkPoint FL CM UD UA d a (iw.1, iw.2)).raw = getInd r'' iw.1 := by
      show (((FL.find? _).map _).getD 0) = _
      rw [hfind]
      rfl
    have hval : (mkPoint FL CM UD UA d a (iw.1, iw.2)).value =
        JsNum.fin (getInd r'' iw.1 / MX iw.1 * iw.2) := by
      show jsOrZero (lookupCM CM d a iw.1) = _
      rw [hsome]
      have hdiv : jsDiv (getInd r'' iw.1) (MX iw.1) =
          JsNum.fin (getInd r'' iw.1 / MX iw.1) := by
        unfold jsDiv
        rw [if_neg (ne_of_lt hmax).symm]
      rw [hdiv]
      exact jsOrZero_fin _
    have hle : getInd r'' iw.1 ≤ MX iw.1 := le_maxI hr''mem
    have h0 : 0 ≤ getInd r'' iw.1 := hpos r'' hr''mem
    refine ⟨by rw [hval, hraw], ?_, ?_, ?_⟩
    · rw [hraw]
      exact mul_nonneg (div_nonneg h0 (le_of_lt hmax)) (le_of_lt hw)
    · rw [hraw]
      calc getInd r'' iw.1 / MX iw.1 * iw.2
          ≤ 1 * iw.2 := by
            refine mul_le_mul_of_nonneg_right ?_ (le_of_lt hw)
            rw [div_le_one hmax]
            exact hle
        _ = iw.2 := one_mul _
    · rw [hval, hraw]
      constructor
      · intro hcon
        injection hcon with h'
        nth_rewrite 2 [← one_mul iw.2] at h'
        have h1 := mul_right_cancel₀ (ne_of_lt hw).symm h'
        rw [div_eq_one_iff_eq (ne_of_lt hmax).symm] at h1
        exact h1
      · intro hcon
        rw [hcon, div_self (ne_of_lt hmax).symm, one_mul]

/-- Witness for C5 at a two-record subset with ghgs means 2 and 1. -/
theorem normalized_values_bounded_witness :
    ("ghgs", [⟨0, 0, JsNum.fin 1, "ghgs", 2⟩, ⟨1, 0, JsNum.fin (1/2), "ghgs", 1⟩])
      ∈ processedData3D recsTwo ∧
    ∀ p ∈ ([⟨0, 0, JsNum.fin 1, "ghgs", 2⟩, ⟨1, 0, JsNum.fin (1/2), "ghgs", 1⟩] : List Pt),
      p.value = JsNum.fin (p.raw / maxI (filteredData recsTwo) "ghgs" * 1) ∧
      0 ≤ p.raw / maxI (filteredData recsTwo) "ghgs" * 1 ∧
      p.raw / maxI (filteredData recsTwo) "ghgs" * 1 ≤ 1 ∧
      (p.value = JsNum.fin 1 ↔ p.raw = maxI (filteredData recsTwo) "ghgs") :=
  ⟨by with_unfolding_all decide,
   normalized_values_bounded recsTwo ("ghgs", 1)
     [⟨0, 0, JsNum.fin 1, "ghgs", 2⟩, ⟨1, 0, JsNum.fin (1/2), "ghgs", 1⟩]
     (by with_unfolding_all decide) (by with_unfolding_all decide)
     (by with_unfolding_all decide) (by with_unfolding_all decide)
     (by with_unfolding_all decide)⟩

end DietViz
